import Mathlib

/-
Verification of the phone-verification core of the gmail_adspower repository.

The development shallowly embeds two Python modules:

* `src/apis/phone_manager.py` — the number reuse store (`PhoneManager`):
  entries are `ReusableNumber` records kept in a JSON list; operations are
  `add_number`, `get_reusable_number`, `mark_number_used`, `remove_number`
  and the internal `_cleanup_expired_numbers`.  The store is modelled as a
  `List ReusableNumber`; the wall clock (`time.time()`) is an explicit
  `now : Int` argument; "the storage file was rewritten" is modelled as a
  boolean component of the result where a claim depends on it.
  Python's `list.sort(key=...)` is a stable ascending sort; it is embedded
  as the stable insertion sort `isortByKey`, which agrees with any stable
  sort on both the sorted output and (in particular) its head.

* `src/automations/gmail_creator/phone_verify.py` — the verification
  orchestrator (`PhoneVerification.handle_verification`), together with the
  behaviour of the SMS client (`src/apis/sms_api.py`) it drives.  The
  browser driver and the remote SMS service are modelled as a deterministic
  oracle `Env`: every observation the Python code makes (element present,
  button clicked, balance, purchase result, SMS polling outcome, elapsed
  wall-clock readings) is answered by the oracle, indexed by a global query
  counter `tick` threaded through the state.  Remote API calls and the
  country-exclusion events are recorded in a ghost `trace` so that the
  claims about "which calls were issued" can be stated.  Exception paths of
  the Python code that can only be triggered by the runtime itself (not by
  a driver/API observation) are not reachable in the model; every
  observation-driven branch of the source, including its early returns and
  `continue`s, is mirrored.
-/

namespace PV

/-! ### Stable ascending sort by key (model of Python `list.sort(key=...)`) -/

def insertByKey {α β : Type} [LinearOrder β] (k : α → β) (a : α) : List α → List α
  | [] => [a]
  | b :: l => if k b < k a then b :: insertByKey k a l else a :: b :: l

def isortByKey {α β : Type} [LinearOrder β] (k : α → β) : List α → List α
  | [] => []
  | a :: l => insertByKey k a (isortByKey k l)

theorem insertByKey_ne_nil {α β : Type} [LinearOrder β] (k : α → β) (a : α) (l : List α) :
    insertByKey k a l ≠ [] := by
  cases l with
  | nil => simp [insertByKey]
  | cons b l => simp only [insertByKey]; split <;> simp

theorem mem_insertByKey {α β : Type} [LinearOrder β] {k : α → β} {a x : α} {l : List α} :
    x ∈ insertByKey k a l ↔ x = a ∨ x ∈ l := by
  induction l with
  | nil => simp [insertByKey]
  | cons b l ih =>
      simp only [insertByKey]
      split
      · rw [List.mem_cons, ih, List.mem_cons]
        tauto
      · exact List.mem_cons

theorem mem_isortByKey {α β : Type} [LinearOrder β] {k : α → β} {x : α} {l : List α} :
    x ∈ isortByKey k l ↔ x ∈ l := by
  induction l with
  | nil => simp [isortByKey]
  | cons a l ih => simp [isortByKey, mem_insertByKey, ih]

theorem head?_insertByKey {α β : Type} [LinearOrder β] (k : α → β) (a : α) (l : List α) :
    (insertByKey k a l).head? =
      match l.head? with
      | none => some a
      | some b => if k b < k a then some b else some a := by
  cases l with
  | nil => simp [insertByKey]
  | cons b l =>
      by_cases h : k b < k a
      · simp [insertByKey, h]
      · simp [insertByKey, h]

theorem isortByKey_eq_nil_iff {α β : Type} [LinearOrder β] (k : α → β) (l : List α) :
    isortByKey k l = [] ↔ l = [] := by
  cases l with
  | nil => simp [isortByKey]
  | cons a l => simpa [isortByKey] using insertByKey_ne_nil k a (isortByKey k l)

/-- The head of the stable sort is a member of the input list. -/
theorem head?_isortByKey_mem {α β : Type} [LinearOrder β] {k : α → β} {x : α} {l : List α}
    (h : (isortByKey k l).head? = some x) : x ∈ l := by
  have hx : x ∈ isortByKey k l := by
    cases hl : isortByKey k l with
    | nil => rw [hl] at h; exact absurd h (by simp)
    | cons b t =>
        rw [hl] at h
        simp only [List.head?_cons, Option.some.injEq] at h
        subst h
        exact List.mem_cons_self _ _
  exact mem_isortByKey.mp hx

/-- The head of the stable sort has minimal key. -/
theorem head?_isortByKey_min {α β : Type} [LinearOrder β] {k : α → β} {x : α} {l : List α}
    (h : (isortByKey k l).head? = some x) : ∀ y ∈ l, k x ≤ k y := by
  induction l generalizing x with
  | nil => simp [isortByKey] at h
  | cons a l ih =>
      simp only [isortByKey] at h
      rw [head?_insertByKey] at h
      intro y hy
      cases hhead : (isortByKey k l).head? with
      | none =>
          rw [hhead] at h
          simp only [Option.some.injEq] at h
          subst h
          have hnil : isortByKey k l = [] := by
            cases hl : isortByKey k l with
            | nil => rfl
            | cons b t => rw [hl] at hhead; exact absurd hhead (by simp)
          have : l = [] := (isortByKey_eq_nil_iff k l).mp hnil
          subst this
          rcases List.mem_cons.mp hy with rfl | hy
          · exact le_refl _
          · exact absurd hy (by simp)
      | some b =>
          rw [hhead] at h
          simp only at h
          by_cases hlt : k b < k a
          · rw [if_pos hlt] at h
            simp only [Option.some.injEq] at h
            subst h
            rcases List.mem_cons.mp hy with rfl | hy
            · exact le_of_lt hlt
            · exact ih hhead y hy
          · rw [if_neg hlt] at h
            simp only [Option.some.injEq] at h
            subst h
            rcases List.mem_cons.mp hy with rfl | hy
            · exact le_refl _
            · exact le_trans (not_lt.mp hlt) (ih hhead y hy)

/-- The head of the stable sort is the earliest element of the input attaining
the minimal key: everything strictly before it in the input has a strictly
larger key. -/
theorem head?_isortByKey_first {α β : Type} [LinearOrder β] {k : α → β} {x : α} {l : List α}
    (h : (isortByKey k l).head? = some x) :
    ∃ l₁ l₂, l = l₁ ++ x :: l₂ ∧ ∀ y ∈ l₁, k x < k y := by
  induction l generalizing x with
  | nil => simp [isortByKey] at h
  | cons a l ih =>
      simp only [isortByKey] at h
      rw [head?_insertByKey] at h
      cases hhead : (isortByKey k l).head? with
      | none =>
          rw [hhead] at h
          simp only [Option.some.injEq] at h
          subst h
          exact ⟨[], l, rfl, by simp⟩
      | some b =>
          rw [hhead] at h
          simp only at h
          by_cases hlt : k b < k a
          · rw [if_pos hlt] at h
            simp only [Option.some.injEq] at h
            subst h
            rcases ih hhead with ⟨l₁, l₂, rfl, hl₁⟩
            refine ⟨a :: l₁, l₂, rfl, ?_⟩
            intro y hy
            rcases List.mem_cons.mp hy with rfl | hy
            · exact hlt
            · exact hl₁ y hy
          · rw [if_neg hlt] at h
            simp only [Option.some.injEq] at h
            subst h
            exact ⟨[], l, rfl, by simp⟩

/-! ### Indexed enumeration (model of Python list iteration with identity of
entries tracked by position, mirroring how the source mutates the selected
dict in place inside `self.numbers`) -/

def enumF {α : Type} : Nat → List α → List (Nat × α)
  | _, [] => []
  | i, a :: l => (i, a) :: enumF (i + 1) l

theorem mem_enumF_snd {α : Type} {p : Nat × α} : ∀ {i : Nat} {l : List α},
    p ∈ enumF i l → p.2 ∈ l := by
  intro i l
  induction l generalizing i with
  | nil => simp [enumF]
  | cons a l ih =>
      intro h
      simp only [enumF, List.mem_cons] at h
      rcases h with rfl | h
      · simp
      · exact List.mem_cons_of_mem _ (ih h)

theorem mem_enumF_fst_lt {α : Type} {p : Nat × α} : ∀ {i : Nat} {l : List α},
    p ∈ enumF i l → i ≤ p.1 := by
  intro i l
  induction l generalizing i with
  | nil => simp [enumF]
  | cons a l ih =>
      intro h
      simp only [enumF, List.mem_cons] at h
      rcases h with rfl | h
      · exact le_refl _
      · exact le_trans (Nat.le_succ i) (ih h)

theorem pairwise_enumF {α : Type} : ∀ (i : Nat) (l : List α),
    (enumF i l).Pairwise (fun p q => p.1 < q.1) := by
  intro i l
  induction l generalizing i with
  | nil => simp [enumF]
  | cons a l ih =>
      simp only [enumF, List.pairwise_cons]
      exact ⟨fun q hq => lt_of_lt_of_le (Nat.lt_succ_self i) (mem_enumF_fst_lt hq), ih (i + 1)⟩

theorem enumF_getElem {α : Type} : ∀ {i j : Nat} {l : List α} {x : α},
    (j, x) ∈ enumF i l → ∃ d, j = i + d ∧ l.drop d = x :: l.drop (d + 1) := by
  intro i j l
  induction l generalizing i with
  | nil => simp [enumF]
  | cons a l ih =>
      intro x h
      simp only [enumF, List.mem_cons, Prod.mk.injEq] at h
      rcases h with ⟨rfl, rfl⟩ | h
      · exact ⟨0, by simp⟩
      · rcases ih h with ⟨d, rfl, hd⟩
        exact ⟨d + 1, by omega, by simpa using hd⟩

/-! ### Data model of the reuse store (`PhoneManager`, src/apis/phone_manager.py)

A `ReusableNumber` is one record of `credentials/phone_numbers.json`.
Timestamps are integers (the source uses `time.time()` floats; only order
and differences against the window matter to the claims). -/

structure ReusableNumber where
  phone_number : String
  country_code : String
  activation_id : String
  first_used : Int
  last_used : Int
  services : List String
  times_used : Nat
  deriving DecidableEq, Repr

/-- Model of `PhoneManager.reuse_window` (30 * 60 seconds). -/
def reuse_window : Int := 30 * 60

/-- Model of `PhoneManager._cleanup_expired_numbers`: keep entries with
`current_time - first_used < reuse_window`. -/
def cleanup_expired_numbers (now window : Int) (numbers : List ReusableNumber) :
    List ReusableNumber :=
  numbers.filter (fun n => now - n.first_used < window)

/-- Model of the in-place update applied to the first entry matching a phone
number: `last_used = now`, `times_used += 1`, append the service if new.
This is the shared body of the update branch of `add_number` (lines 58-68)
and of `mark_number_used` (lines 150-157); returns `none` when no entry
matches. -/
def touchFirst (now : Int) (service phone : String) :
    List ReusableNumber → Option (List ReusableNumber)
  | [] => none
  | n :: rest =>
      if n.phone_number = phone then
        some ({ n with
                  last_used := now
                  times_used := n.times_used + 1
                  services :=
                    if service ∈ n.services then n.services else n.services ++ [service] } :: rest)
      else
        (touchFirst now service phone rest).map (fun l => n :: l)

/-- Model of `PhoneManager.add_number`.  Result: (returned bool, store after
the call, whether `_save_numbers` rewrote the storage file).  The guard
mirrors `if not all([phone_number, country_code, activation_id])` — for the
string arguments Python falsiness is emptiness. -/
def add_number (now : Int) (numbers : List ReusableNumber)
    (phone_number country_code activation_id service : String) :
    Bool × List ReusableNumber × Bool :=
  if phone_number = "" ∨ country_code = "" ∨ activation_id = "" then
    (false, numbers, false)
  else
    match touchFirst now service phone_number numbers with
    | some updated => (true, updated, true)
    | none =>
        let new_number : ReusableNumber :=
          { phone_number := phone_number
            country_code := country_code
            activation_id := activation_id
            first_used := now
            last_used := now
            services := [service]
            times_used := 1 }
        (true, numbers ++ [new_number], true)

/-- Eligibility filter of `get_reusable_number` (lines 103-110): within the
reuse window measured from `last_used`, and not yet used for `service`. -/
def reuseEligible (now window : Int) (service : String) (n : ReusableNumber) : Bool :=
  decide (now - n.last_used < window) && !(n.services.contains service)

/-- The checkout mutation `get_reusable_number` applies to the selected entry
(lines 117-120): refresh `last_used`, bump `times_used`, append the service. -/
def checkout (now : Int) (service : String) (n : ReusableNumber) : ReusableNumber :=
  { n with
      last_used := now
      times_used := n.times_used + 1
      services := n.services ++ [service] }

/-- Model of `PhoneManager.get_reusable_number`: purge expired entries
(measured from `first_used`), filter eligible entries, stable-sort them by
`times_used` ascending, check out the first one (mutating it in place in the
store) and return it.  Entries are tracked together with their position in
the cleaned store so that the in-place mutation of the selected Python dict
is mirrored by `List.set`. -/
def get_reusable_number (now window : Int) (service : String)
    (numbers : List ReusableNumber) : Option ReusableNumber × List ReusableNumber :=
  let cleaned := cleanup_expired_numbers now window numbers
  let valid := (enumF 0 cleaned).filter (fun p => reuseEligible now window service p.2)
  match (isortByKey (fun p => p.2.times_used) valid).head? with
  | none => (none, cleaned)
  | some (i, n) => (some (checkout now service n), cleaned.set i (checkout now service n))

/-- Model of `PhoneManager.mark_number_used`: update the first entry matching
the phone number, if any. -/
def mark_number_used (now : Int) (phone_number service : String)
    (numbers : List ReusableNumber) : Bool × List ReusableNumber :=
  match touchFirst now service phone_number numbers with
  | some updated => (true, updated)
  | none => (false, numbers)

/-- Model of `PhoneManager.remove_number`: delete the first entry matching the
phone number. -/
def remove_number (phone_number : String) :
    List ReusableNumber → Bool × List ReusableNumber
  | [] => (false, [])
  | n :: rest =>
      if n.phone_number = phone_number then (true, rest)
      else
        let r := remove_number phone_number rest
        (r.1, n :: r.2)

/-- The eligible entries of the store, with their positions, as
`get_reusable_number` computes them. -/
def validEntries (now window : Int) (service : String)
    (numbers : List ReusableNumber) : List (Nat × ReusableNumber) :=
  (enumF 0 (cleanup_expired_numbers now window numbers)).filter
    (fun p => reuseEligible now window service p.2)

theorem get_reusable_number_eq (now window : Int) (service : String)
    (numbers : List ReusableNumber) :
    get_reusable_number now window service numbers =
      match (isortByKey (fun p => p.2.times_used)
          (validEntries now window service numbers)).head? with
      | none => (none, cleanup_expired_numbers now window numbers)
      | some (i, n) =>
          (some (checkout now service n),
            (cleanup_expired_numbers now window numbers).set i (checkout now service n)) := rfl

/-! ### Claims C7 and C8 -/

/-- C7: whenever `get_reusable_number service` returns a number, the store
entry it checked out (the returned record is that entry after the checkout
mutation) was not already tagged with `service`, had the smallest
`times_used` among all eligible entries, and, among the eligible entries
tied at that minimum, was the one occurring earliest in store order. -/
theorem get_reusable_number_selects_min (now window : Int) (service : String)
    (numbers : List ReusableNumber) (r : ReusableNumber) (s' : List ReusableNumber)
    (h : get_reusable_number now window service numbers = (some r, s')) :
    ∃ i n, (i, n) ∈ validEntries now window service numbers ∧
      r = checkout now service n ∧
      service ∉ n.services ∧
      ∀ q ∈ validEntries now window service numbers,
        n.times_used ≤ q.2.times_used ∧ (q.1 < i → n.times_used < q.2.times_used) := by
  rw [get_reusable_number_eq] at h
  cases hhead : (isortByKey (fun p => p.2.times_used)
      (validEntries now window service numbers)).head? with
  | none => rw [hhead] at h; exact absurd h (by simp)
  | some p =>
      obtain ⟨i, n⟩ := p
      rw [hhead] at h
      simp only [Prod.mk.injEq, Option.some.injEq] at h
      obtain ⟨hr, -⟩ := h
      refine ⟨i, n, head?_isortByKey_mem hhead, hr.symm, ?_, ?_⟩
      · have hmem := head?_isortByKey_mem hhead
        have := (List.mem_filter.mp hmem).2
        simp only [reuseEligible, Bool.and_eq_true, Bool.not_eq_true', decide_eq_true_eq] at this
        simpa [List.contains_iff_exists_mem_beq] using this.2
      · intro q hq
        constructor
        · exact head?_isortByKey_min hhead q hq
        · intro hlt
          obtain ⟨l₁, l₂, hdecomp, hfirst⟩ := head?_isortByKey_first hhead
          have hpw : (validEntries now window service numbers).Pairwise
              (fun p q => p.1 < q.1) :=
            List.Pairwise.filter _ (pairwise_enumF 0 _)
          rw [hdecomp] at hpw hq
          rcases List.mem_append.mp hq with hq1 | hq2
          · exact hfirst q hq1
          · rcases List.mem_cons.mp hq2 with rfl | hq2
            · simp at hlt
            · have hcons := (List.pairwise_append.mp hpw).2.1
              have hgt := (List.pairwise_cons.mp hcons).1 q hq2
              exact absurd hlt (by omega)

/-- Sample store entries used by the concrete witnesses. -/
def sampleA : ReusableNumber := ⟨"n1", "151", "a1", 0, 0, [], 3⟩

def sampleB : ReusableNumber := ⟨"n2", "12", "a2", 0, 5, [], 1⟩

def sampleC : ReusableNumber := ⟨"n3", "40", "a3", 0, 6, [], 1⟩

/-- Witness for C7: on a store with three eligible entries, two of them tied
at the minimal use count, the entry checked out is the earlier of the tied
ones (`sampleB`, at position 1). -/
theorem get_reusable_number_selects_min_witness :
    ∃ i n, (i, n) ∈ validEntries 100 1800 "go" [sampleA, sampleB, sampleC] ∧
      (⟨"n2", "12", "a2", 0, 100, ["go"], 2⟩ : ReusableNumber) = checkout 100 "go" n ∧
      "go" ∉ n.services ∧
      ∀ q ∈ validEntries 100 1800 "go" [sampleA, sampleB, sampleC],
        n.times_used ≤ q.2.times_used ∧ (q.1 < i → n.times_used < q.2.times_used) :=
  get_reusable_number_selects_min 100 1800 "go" [sampleA, sampleB, sampleC]
    ⟨"n2", "12", "a2", 0, 100, ["go"], 2⟩
    [sampleA, ⟨"n2", "12", "a2", 0, 100, ["go"], 2⟩, sampleC]
    (by decide)

/-- C8: a number returned by `get_reusable_number` is never expired relative
to first use: the purge of entries with `now - first_used ≥ reuse_window`
(`_cleanup_expired_numbers`) runs before selection, so every candidate —
in particular the returned one — satisfies `now - first_used < window`. -/
theorem get_reusable_number_not_expired (now window : Int) (service : String)
    (numbers : List ReusableNumber) (r : ReusableNumber) (s' : List ReusableNumber)
    (h : get_reusable_number now window service numbers = (some r, s')) :
    now - r.first_used < window := by
  rw [get_reusable_number_eq] at h
  cases hhead : (isortByKey (fun p => p.2.times_used)
      (validEntries now window service numbers)).head? with
  | none => rw [hhead] at h; exact absurd h (by simp)
  | some p =>
      obtain ⟨i, n⟩ := p
      rw [hhead] at h
      simp only [Prod.mk.injEq, Option.some.injEq] at h
      obtain ⟨hr, -⟩ := h
      have hmem := head?_isortByKey_mem hhead
      have hn : n ∈ cleanup_expired_numbers now window numbers :=
        mem_enumF_snd (List.mem_filter.mp hmem).1
      have hlt := (List.mem_filter.mp hn).2
      rw [← hr]
      simpa [checkout] using hlt

/-- Witness for C8: concrete application on the three-entry sample store. -/
theorem get_reusable_number_not_expired_witness :
    (100 : Int) - (⟨"n2", "12", "a2", 0, 100, ["go"], 2⟩ : ReusableNumber).first_used < 1800 :=
  get_reusable_number_not_expired 100 1800 "go" [sampleA, sampleB, sampleC]
    ⟨"n2", "12", "a2", 0, 100, ["go"], 2⟩
    [sampleA, ⟨"n2", "12", "a2", 0, 100, ["go"], 2⟩, sampleC]
    (by decide)

/-! ### Claim C9: the `first_used ≤ last_used` invariant -/

/-- The invariant of claim C9: every entry of the store was first used no
later than it was last used. -/
def storeInv (numbers : List ReusableNumber) : Prop :=
  ∀ n ∈ numbers, n.first_used ≤ n.last_used

theorem touchFirst_storeInv (now : Int) (service phone : String) :
    ∀ {l l' : List ReusableNumber}, touchFirst now service phone l = some l' →
      storeInv l → (∀ n ∈ l, n.first_used ≤ now) → storeInv l' := by
  intro l
  induction l with
  | nil => intro l' h; exact absurd h (by simp [touchFirst])
  | cons n rest ih =>
      intro l' h hinv hnow
      simp only [touchFirst] at h
      split at h
      · simp only [Option.some.injEq] at h
        subst h
        intro m hm
        rcases List.mem_cons.mp hm with rfl | hm
        · exact hnow n (List.mem_cons_self _ _)
        · exact hinv m (List.mem_cons_of_mem _ hm)
      · cases htf : touchFirst now service phone rest with
        | none => rw [htf] at h; exact absurd h (by simp)
        | some rest' =>
            rw [htf] at h
            simp only [Option.map_some', Option.some.injEq] at h
            subst h
            intro m hm
            rcases List.mem_cons.mp hm with rfl | hm
            · exact hinv m (List.mem_cons_self _ _)
            · exact ih htf (fun x hx => hinv x (List.mem_cons_of_mem _ hx))
                (fun x hx => hnow x (List.mem_cons_of_mem _ hx)) m hm

theorem mem_remove_number (phone : String) :
    ∀ {l : List ReusableNumber} {n : ReusableNumber},
      n ∈ (remove_number phone l).2 → n ∈ l := by
  intro l
  induction l with
  | nil => intro n h; exact absurd h (by simp [remove_number])
  | cons m rest ih =>
      intro n h
      simp only [remove_number] at h
      split at h
      · exact List.mem_cons_of_mem _ h
      · rcases List.mem_cons.mp h with rfl | h
        · exact List.mem_cons_self _ _
        · exact List.mem_cons_of_mem _ (ih h)

/-- C9: the invariant `first_used ≤ last_used` holds of every entry produced
by any store operation, assuming it held before the call and that all stored
timestamps lie in the past (`first_used ≤ now`).  Covers `add_number`,
`get_reusable_number`, `mark_number_used`, `remove_number` and the expiry
cleanup. -/
theorem store_operations_preserve_inv (now window : Int)
    (phone cc aid service : String) (numbers : List ReusableNumber)
    (hinv : storeInv numbers) (hnow : ∀ n ∈ numbers, n.first_used ≤ now) :
    storeInv (add_number now numbers phone cc aid service).2.1 ∧
    storeInv (get_reusable_number now window service numbers).2 ∧
    storeInv (mark_number_used now phone service numbers).2 ∧
    storeInv (remove_number phone numbers).2 ∧
    storeInv (cleanup_expired_numbers now window numbers) := by
  have hclean : storeInv (cleanup_expired_numbers now window numbers) :=
    fun n hn => hinv n (List.mem_filter.mp hn).1
  have hcleannow : ∀ n ∈ cleanup_expired_numbers now window numbers, n.first_used ≤ now :=
    fun n hn => hnow n (List.mem_filter.mp hn).1
  refine ⟨?_, ?_, ?_, ?_, hclean⟩
  · unfold add_number
    split
    · exact hinv
    · cases htf : touchFirst now service phone numbers with
      | some updated =>
          simp only [htf]
          exact touchFirst_storeInv now service phone htf hinv hnow
      | none =>
          simp only [htf]
          intro n hn
          rcases List.mem_append.mp hn with hn | hn
          · exact hinv n hn
          · rcases List.mem_singleton.mp hn with rfl
            exact le_refl _
  · rw [get_reusable_number_eq]
    cases hhead : (isortByKey (fun p => p.2.times_used)
        (validEntries now window service numbers)).head? with
    | none => simpa [hhead] using hclean
    | some p =>
        obtain ⟨i, n⟩ := p
        simp only [hhead]
        intro m hm
        rcases List.mem_or_eq_of_mem_set hm with hm | rfl
        · exact hclean m hm
        · have hn : n ∈ cleanup_expired_numbers now window numbers :=
            mem_enumF_snd (List.mem_filter.mp (head?_isortByKey_mem hhead)).1
          simpa [checkout] using hcleannow n hn
  · unfold mark_number_used
    cases htf : touchFirst now service phone numbers with
    | some updated => simpa using touchFirst_storeInv now service phone htf hinv hnow
    | none => simpa using hinv
  · exact fun n hn => hinv n (mem_remove_number phone hn)

/-- Witness for C9: the invariant is preserved on the concrete sample store
at time 100. -/
theorem store_operations_preserve_inv_witness :
    storeInv (add_number 100 [sampleA, sampleB] "n1" "12" "a9" "go").2.1 ∧
    storeInv (get_reusable_number 100 1800 "go" [sampleA, sampleB]).2 ∧
    storeInv (mark_number_used 100 "n1" "go" [sampleA, sampleB]).2 ∧
    storeInv (remove_number "n1" [sampleA, sampleB]).2 ∧
    storeInv (cleanup_expired_numbers 100 1800 [sampleA, sampleB]) :=
  store_operations_preserve_inv 100 1800 "n1" "12" "a9" "go" [sampleA, sampleB]
    (by unfold storeInv; decide) (by decide)

/-- C10: `add_number` with a missing (empty) phone number, country code or
activation id returns `False` and leaves the store untouched, without
rewriting the storage file. -/
theorem add_number_incomplete_noop (now : Int) (numbers : List ReusableNumber)
    (phone cc aid service : String) (h : phone = "" ∨ cc = "" ∨ aid = "") :
    add_number now numbers phone cc aid service = (false, numbers, false) := by
  unfold add_number
  rw [if_pos h]

/-- Witness for C10: a concrete call with an empty phone number. -/
theorem add_number_incomplete_noop_witness :
    add_number 5 [sampleA] "" "55" "a9" "go" = (false, [sampleA], false) :=
  add_number_incomplete_noop 5 [sampleA] "" "55" "a9" "go" (Or.inl rfl)

/-! ### Data model of the verification orchestrator
(`PhoneVerification`, src/automations/gmail_creator/phone_verify.py) -/

inductive VerificationState
  | INITIAL | NUMBER_REQUESTED | NUMBER_RECEIVED | NUMBER_SUBMITTED
  | WAITING_SMS | SMS_RECEIVED | RESENDING_SMS | FAILED_SMS | COMPLETED | FAILED
  deriving DecidableEq, Repr

/-- Model of the `ActivationInfo` dataclass. -/
structure ActivationInfo where
  activation_id : String
  phone_number : String
  country_code : String
  start_time : Int
  state : VerificationState
  attempts : Nat := 0
  max_lifetime : Int := 1200
  deriving DecidableEq, Repr

/-- Remote SMS-service calls the orchestrator can issue (through `SMSAPI`). -/
inductive ApiCall
  | getSmsCode (activation_id : String)
  | buyNumber (service country : String)
  | setStatus (activation_id : String) (status : Nat)
  deriving DecidableEq, Repr

/-- Ghost trace events of one `handle_verification` run: remote calls issued,
successful purchases (with the activation id the service returned), country
exclusions (`self.used_countries.add`), the transition to `COMPLETED`, and
recordings into the reuse store (`phone_manager.add_number`). -/
inductive Event
  | call (c : ApiCall)
  | purchased (activation_id : String)
  | exclude (country : String)
  | completed (activation_id : String)
  | storeAdd (phone service : String)
  deriving DecidableEq, Repr

/-- Outcome of one `SMSAPI.get_sms_code` poll: a code (`STATUS_OK`), the
remote-cancel signal (`STATUS_CANCEL`, returns None at once), or attempts
exhausted (sets status 6 remotely, returns None). -/
inductive SmsOutcome
  | code (c : String)
  | cancelled
  | timeout
  deriving DecidableEq, Repr

/-- Observations one format attempt of `_submit_phone_number` makes, in source
order: Next-button located and clicked, SMS-code field present/displayed,
error banner present, phone input still present, URL contains "verifyphone".
The last observation does not affect the outcome (both branches of the source
return True); it is retained for completeness of the probe. -/
structure SubmitProbe where
  nextClickOk : Bool
  codePresent : Bool
  codeDisplayed : Bool
  errorPresent : Bool
  phoneStillPresent : Bool
  urlVerify : Bool
  deriving DecidableEq, Repr

/-- Deterministic oracle for every observation the orchestrator makes of the
browser, the clock and the remote SMS service.  Each stream is indexed by the
global query counter `tick`; `elapsed` answers the successive
`time.time() - sms_process_start` readings of `_handle_sms_verification`. -/
structure Env where
  checkScreen : Nat → Bool
  balance : Option ℚ
  numberStatus : String → Nat
  prices : Nat → Option (List (String × ℚ))
  buy : Nat → Option (String × String)
  smsOutcome : Nat → SmsOutcome
  ensureScreen : Nat → Bool
  pageReady : Nat → Bool
  phoneFieldFound : Nat → Bool
  submitProbe : Nat → SubmitProbe
  resendClick : Nat → Bool
  phoneAfterResend : Nat → Bool
  codeAfterResend : Nat → Bool
  codeFieldFound : Nat → Bool
  nextButtonOk : Nat → Bool
  codeErrorDetected : Nat → Bool
  elapsed : Nat → Nat
  timeNow : Nat → Int

/-- Mutable state of one `PhoneVerification` instance, plus the oracle query
counter and the ghost trace.  `store` is `phone_manager`: `none` when no reuse
store is attached (the constructor default, never overwritten by the
pipeline in `core.py`). -/
structure OrchState where
  tick : Nat
  current_activation : Option ActivationInfo
  used_countries : List String
  vstate : VerificationState
  phone_number : Option String
  store : Option (List ReusableNumber)
  trace : List Event
  deriving DecidableEq, Repr

/-- Model of `self.used_countries.add(c)` (Python set insertion, insertion
order retained for list modelling). -/
def addUsed (c : String) (l : List String) : List String :=
  if c ∈ l then l else l ++ [c]

def bump (st : OrchState) : OrchState := { st with tick := st.tick + 1 }

def logEvent (e : Event) (st : OrchState) : OrchState :=
  { st with trace := st.trace ++ [e] }

def logCall (c : ApiCall) (st : OrchState) : OrchState := logEvent (Event.call c) st

def excludeCountry (c : String) (st : OrchState) : OrchState :=
  { st with
      trace := st.trace ++ [Event.exclude c]
      used_countries := addUsed c st.used_countries }

/-- The allow-list `SMSAPI.selected_countries`, in insertion (iteration)
order. -/
def selected_countries : List (String × String) :=
  [("151", "Chile"), ("12", "Estados Unidos"), ("40", "Canadá"),
   ("16", "Reino Unido"), ("117", "Portugal")]

/-- Model of `_check_phone_screen`: one presence probe of the phone input. -/
def check_phone_screen (env : Env) (st : OrchState) : Bool × OrchState :=
  (env.checkScreen st.tick, bump st)

/-- Model of `_check_number_availability`: query stock for every allow-listed
country not yet excluded; succeed iff some country has stock.  (The source
also caches the counts in `self._available_numbers`, which no other code
reads; the dead cache is not modelled.) -/
def check_number_availability (env : Env) (st : OrchState) : Bool × OrchState :=
  let available := selected_countries.filter
    (fun p => !(st.used_countries.contains p.1) && decide (0 < env.numberStatus p.1))
  (!available.isEmpty, st)

/-- Model of `_validate_initial_conditions`: abort on missing or non-positive
balance, then require availability. -/
def validate_initial_conditions (env : Env) (st : OrchState) : Bool × OrchState :=
  match env.balance with
  | none => (false, st)
  | some b => if b ≤ 0 then (false, st) else check_number_availability env st

/-- Lookup of `prices[country]["go"]["cost"]` in the price catalog returned by
`get_prices(service="go")`: present iff the country is listed with a "go"
entry. -/
def lookupPrice (prices : List (String × ℚ)) (c : String) : Option ℚ :=
  (prices.find? (fun p => p.1 == c)).map Prod.snd

/-- The purchase loop of `_get_new_number` (lines 295-319): try each country
of the price-sorted candidate list; a purchase succeeds when the client hands
back a truthy activation id and phone number (`buy_number` itself validates
`all([activation_id, phone_number])` and turns a failure into `(None, None)`,
and the orchestrator checks `if phone_number:`); otherwise the country is
added to `used_countries` and the next one is tried. -/
def buyLoop (env : Env) : OrchState → List (String × ℚ) → Option ActivationInfo × OrchState
  | st, [] => (none, st)
  | st, (c, _) :: rest =>
      let r := env.buy st.tick
      let st1 := logCall (ApiCall.buyNumber "go" c) (bump st)
      match r with
      | some (aid, phone) =>
          if aid = "" ∨ phone = "" then buyLoop env (excludeCountry c st1) rest
          else
            let t := env.timeNow st1.tick
            let st2 := { (bump st1) with phone_number := some phone }
            let st3 := logEvent (Event.purchased aid) st2
            (some { activation_id := aid, phone_number := phone, country_code := c,
                    start_time := t, state := VerificationState.NUMBER_RECEIVED }, st3)
      | none => buyLoop env (excludeCountry c st1) rest

/-- The price-sorted candidate list `_get_new_number` builds: allow-listed
countries not yet excluded, priced in the catalog, stably sorted by cost
ascending (Python `list.sort(key=...)`). -/
def candidateCountries (prices : List (String × ℚ)) (used : List String) :
    List (String × ℚ) :=
  isortByKey (fun p => p.2)
    (((selected_countries.map Prod.fst).filter (fun c => !(used.contains c))).filterMap
      (fun c => (lookupPrice prices c).map (fun cost => (c, cost))))

/-- Model of `_get_new_number`. -/
def get_new_number (env : Env) (st : OrchState) : Option ActivationInfo × OrchState :=
  let available := (selected_countries.map Prod.fst).filter
    (fun c => !(st.used_countries.contains c))
  if available.isEmpty then (none, st)
  else
    let pr := env.prices st.tick
    let st := bump st
    match pr with
    | none => (none, st)
    | some prices =>
        if prices.isEmpty then (none, st)
        else
          let filtered := candidateCountries prices st.used_countries
          if filtered.isEmpty then (none, st)
          else buyLoop env st filtered

/-- Model of `_cancel_number`: guarded by the COMPLETED state; otherwise set
status 6 remotely, exclude the country, clear the activation. -/
def cancel_number (st : OrchState) : OrchState :=
  match st.current_activation with
  | none => st
  | some act =>
      if st.vstate = VerificationState.COMPLETED then st
      else
        let st := logCall (ApiCall.setStatus act.activation_id 6) st
        let st := excludeCountry act.country_code st
        { st with current_activation := none }

/-- Model of `_cancel_current_number`: exclude the country first, then set
status 6 remotely, then clear the activation — with no COMPLETED guard. -/
def cancel_current_number (st : OrchState) : OrchState :=
  match st.current_activation with
  | none => st
  | some act =>
      let st := excludeCountry act.country_code st
      let st := logCall (ApiCall.setStatus act.activation_id 6) st
      { st with current_activation := none }

/-- The retry loop locating the phone input in `_submit_phone_number`
(3 attempts). -/
def findPhoneField (env : Env) : OrchState → Nat → Bool × OrchState
  | st, 0 => (false, st)
  | st, Nat.succ k =>
      let found := env.phoneFieldFound st.tick
      let st := bump st
      if found then (true, st) else findPhoneField env st k

/-- The format loop of `_submit_phone_number` (two formats: bare number and
`+countrycode+number`).  One probe per format attempt, checks in source
order; when no error indication is observed the source returns True whether
or not the URL contains "verifyphone". -/
def submitFormats (env : Env) : OrchState → Nat → Bool × OrchState
  | st, 0 => (false, st)
  | st, Nat.succ k =>
      let probe := env.submitProbe st.tick
      let st := bump st
      if !probe.nextClickOk then submitFormats env st k
      else if probe.codePresent && probe.codeDisplayed then (true, st)
      else if probe.errorPresent then submitFormats env st k
      else if probe.phoneStillPresent then submitFormats env st k
      else (true, st)

/-- Model of `_submit_phone_number`.  The page-ready wait and the
phone-field lookup return False with no cancellation on failure; only
exhausting all formats triggers `_cancel_number`. -/
def submit_phone_number (env : Env) (st : OrchState) : Bool × OrchState :=
  match st.current_activation with
  | none => (false, st)
  | some _ =>
      let ready := env.pageReady st.tick
      let st := bump st
      if !ready then (false, st)
      else
        let r1 := findPhoneField env st 3
        if !r1.1 then (false, r1.2)
        else
          let r2 := submitFormats env r1.2 2
          if r2.1 then (true, r2.2)
          else (false, cancel_number r2.2)

/-- Model of `SMSAPI.get_sms_code` as observed by the orchestrator: logs the
poll; on a code, confirms with status 3; on exhausted attempts, cancels with
status 6 inside the client. -/
def get_sms_code (env : Env) (aid : String) (st : OrchState) : Option String × OrchState :=
  let st := logCall (ApiCall.getSmsCode aid) st
  let o := env.smsOutcome st.tick
  let st := bump st
  match o with
  | SmsOutcome.code c => (some c, logCall (ApiCall.setStatus aid 3) st)
  | SmsOutcome.cancelled => (none, st)
  | SmsOutcome.timeout => (none, logCall (ApiCall.setStatus aid 6) st)

/-- Python truthiness of the polled code (`if not sms_code`). -/
def truthyCode : Option String → Bool
  | none => false
  | some c => !(c == "")

/-- One iteration body of the resend loop of `_handle_sms_verification`
(lines 636-812), entered after the `while` condition held.  The result flag
is `true` when control flows back to the loop condition (the source's falling
off the body or `continue`) and `false` on a `break`; the second component is
the possibly-updated `sms_code`.  `elapsed` readings model the successive
`time.time() - sms_process_start` evaluations, in source order. -/
def resendIteration (env : Env) (aid : String) (code : Option String)
    (st : OrchState) : Bool × Option String × OrchState :=
  let e1 := env.elapsed st.tick
  let st := bump st
  if (180 : Int) - (e1 : Int) < 30 then (false, code, st)
  else
    let e2 := env.elapsed st.tick
    let st := bump st
    if 180 ≤ e2 then (false, code, st)
    else
      let clicked := env.resendClick st.tick
      let st := bump st
      let e3 := env.elapsed st.tick
      let st := bump st
      if 180 ≤ e3 then (false, code, st)
      else if !clicked then (true, code, st)
      else
        let e4 := env.elapsed st.tick
        let st := bump st
        if 180 ≤ e4 then (false, code, st)
        else
          let phonePresent := env.phoneAfterResend st.tick
          let st := bump st
          if phonePresent then
            let r := submit_phone_number env st
            if !r.1 then (true, code, r.2)
            else
              let e5 := env.elapsed r.2.tick
              let st5 := bump r.2
              if (180 : Int) - (e5 : Int) < 30 then (false, code, st5)
              else
                let r6 := get_sms_code env aid st5
                (true, r6.1, r6.2)
          else
            let _codeScreen := env.codeAfterResend st.tick
            let st := bump st
            let e5 := env.elapsed st.tick
            let st := bump st
            if (180 : Int) - (e5 : Int) < 30 then (false, code, st)
            else
              let r6 := get_sms_code env aid st
              (true, r6.1, r6.2)

/-- The resend loop of `_handle_sms_verification` (lines 632-812), fuelled by
the remaining resend attempts (`max_resent_attempts = 2`; `resent_attempt`
increments at the top of every iteration, so the fuel is `2 - resent`).
The loop condition reads the clock only after the code and attempt checks
fail (Python `and` short-circuits). -/
def resendLoop (env : Env) (aid : String) :
    Nat → Option String → OrchState → Option String × OrchState
  | 0, code, st => (code, st)
  | Nat.succ fuel, code, st =>
      if truthyCode code then (code, st)
      else
        let e0 := env.elapsed st.tick
        let st := bump st
        if !(decide (e0 < 180)) then (code, st)
        else
          let r := resendIteration env aid code st
          if r.1 then resendLoop env aid fuel r.2.1 r.2.2 else (r.2.1, r.2.2)

/-- The retry loop locating the SMS-code input (3 attempts, lines 837-849);
exhausting them raises, which the handler at line 948 converts into
`_cancel_current_number` plus failure. -/
def findCodeField (env : Env) : OrchState → Nat → Bool × OrchState
  | st, 0 => (false, st)
  | st, Nat.succ k =>
      let found := env.codeFieldFound st.tick
      let st := bump st
      if found then (true, st) else findCodeField env st k

/-- The reuse-store recording after a completed verification (lines 928-944):
only performed when a `phone_manager` is attached; when the activation has
already been cleared the attribute access raises and the `except` at line 942
swallows the error, leaving the store untouched. -/
def storeNumber (env : Env) (st : OrchState) : OrchState :=
  match st.store with
  | none => st
  | some numbers =>
      match st.current_activation with
      | none => st
      | some act =>
          let t := env.timeNow st.tick
          let st := bump st
          let r := add_number t numbers (st.phone_number.getD "")
            act.country_code act.activation_id "gmail"
          let st2 := { st with store := some r.2.1 }
          if r.1 then logEvent (Event.storeAdd (st.phone_number.getD "") "gmail") st2 else st2

/-- The code-entry tail of `_handle_sms_verification` (lines 833-946): locate
the code field, click Next, check the wrong-code banners (any detection
cancels and fails); otherwise set remote status 8, transition to COMPLETED,
record into the reuse store, and succeed. -/
def submitCode (env : Env) (aid : String) (st : OrchState) : Bool × OrchState :=
  let r1 := findCodeField env st 3
  if !r1.1 then (false, cancel_current_number r1.2)
  else
    let nextOk := env.nextButtonOk r1.2.tick
    let st := bump r1.2
    if !nextOk then (false, cancel_current_number st)
    else
      let err := env.codeErrorDetected st.tick
      let st := bump st
      if err then (false, cancel_current_number st)
      else
        let st := logCall (ApiCall.setStatus aid 8) st
        let st := { st with vstate := VerificationState.COMPLETED }
        let st := logEvent (Event.completed aid) st
        (true, storeNumber env st)

/-- Model of `_handle_sms_verification`. -/
def handle_sms_verification (env : Env) (st : OrchState) : Bool × OrchState :=
  match st.current_activation with
  | none => (false, st)
  | some act =>
      let st := { st with vstate := VerificationState.WAITING_SMS }
      let aid := act.activation_id
      let r1 := get_sms_code env aid st
      let r2 := resendLoop env aid 2 r1.1 r1.2
      if !truthyCode r2.1 then (false, cancel_current_number r2.2)
      else
        let e := env.elapsed r2.2.tick
        let st := bump r2.2
        if (180 : Int) - (e : Int) < 10 then (false, cancel_current_number st)
        else submitCode env aid st

/-- The acquisition-submission-SMS part of `_try_verification_cycle`
(lines 536-552): the acquisition result is assigned to
`self.current_activation` unconditionally, then the number is submitted and
the SMS handled. -/
def cycleCore (env : Env) (st : OrchState) : Bool × OrchState :=
  let r := get_new_number env st
  let st := { r.2 with current_activation := r.1 }
  match r.1 with
  | none => (false, st)
  | some _ =>
      let r2 := submit_phone_number env st
      if !r2.1 then (false, r2.2)
      else handle_sms_verification env r2.2

/-- Model of `_try_verification_cycle`: optional page refresh with a phone
screen re-probe (result only logged, lines 523-533) followed by the core
cycle. -/
def try_verification_cycle (env : Env) (st : OrchState) : Bool × OrchState :=
  let st := if st.used_countries.isEmpty then st else (check_phone_screen env st).2
  cycleCore env st

/-- The attempt loop of `handle_verification` (`MAX_PHONE_ATTEMPTS = 3`);
from the second attempt on, `_ensure_phone_verification_screen` gates the
cycle (a failure skips the cycle and consumes the attempt). -/
def attemptLoop (env : Env) : Nat → Nat → OrchState → Bool × OrchState
  | 0, _, st => (false, st)
  | Nat.succ fuel, count, st =>
      let count1 := count + 1
      if 1 < count1 then
        let okScreen := env.ensureScreen st.tick
        let st := bump st
        if !okScreen then attemptLoop env fuel count1 st
        else
          let r := try_verification_cycle env st
          if r.1 then (true, r.2) else attemptLoop env fuel count1 r.2
      else
        let r := try_verification_cycle env st
        if r.1 then (true, r.2) else attemptLoop env fuel count1 r.2

/-- The body of `handle_verification` up to (but excluding) the `finally`
block: trivial success when the phone screen is absent, precondition
validation, then up to three attempts. -/
def handle_verification_core (env : Env) (st : OrchState) : Bool × OrchState :=
  let r := check_phone_screen env st
  if !r.1 then (true, r.2)
  else
    let r2 := validate_initial_conditions env r.2
    if !r2.1 then (false, r2.2)
    else attemptLoop env 3 0 r2.2

/-- Model of `_ensure_final_cleanup` (the `finally` block): cancel a still
held activation (`_cancel_number` keeps it when the state is COMPLETED). -/
def ensure_final_cleanup (st : OrchState) : OrchState :=
  match st.current_activation with
  | none => st
  | some _ => cancel_number st

/-- Model of `handle_verification`: the body followed by the `finally`
cleanup. -/
def handle_verification (env : Env) (st : OrchState) : Bool × OrchState :=
  let r := handle_verification_core env st
  (r.1, ensure_final_cleanup r.2)

/-- The state of a fresh `PhoneVerification` instance (`__init__`), with an
optionally attached reuse store. -/
def initState (store : Option (List ReusableNumber)) : OrchState :=
  { tick := 0
    current_activation := none
    used_countries := []
    vstate := VerificationState.INITIAL
    phone_number := none
    store := store
    trace := [] }

/-- Countries targeted by `buy_number` calls, in trace order. -/
def buyCountries (tr : List Event) : List String :=
  tr.filterMap (fun e => match e with
    | Event.call (ApiCall.buyNumber _ c) => some c
    | _ => none)

/-- Countries added to the exclusion set, in trace order. -/
def excludeCountries (tr : List Event) : List String :=
  tr.filterMap (fun e => match e with
    | Event.exclude c => some c
    | _ => none)

/-- Reuse-store recordings in the trace. -/
def storeAdds (tr : List Event) : List (String × String) :=
  tr.filterMap (fun e => match e with
    | Event.storeAdd p s => some (p, s)
    | _ => none)

/-! ### Trace discipline for claim C5

`excludedAfter acc tr` is the exclusion set after replaying the exclusion
events of `tr` on top of `acc`; `noBuyExcluded acc tr` checks that every
`buy_number` call in `tr` targets a country not excluded at the moment of
the call (starting from the exclusion set `acc`). -/

def excludedAfter (acc : List String) : List Event → List String
  | [] => acc
  | Event.exclude c :: r => excludedAfter (addUsed c acc) r
  | _ :: r => excludedAfter acc r

def noBuyExcluded (acc : List String) : List Event → Bool
  | [] => true
  | Event.exclude c :: r => noBuyExcluded (addUsed c acc) r
  | Event.call (ApiCall.buyNumber _ c) :: r => !(decide (c ∈ acc)) && noBuyExcluded acc r
  | Event.call (ApiCall.getSmsCode _) :: r => noBuyExcluded acc r
  | Event.call (ApiCall.setStatus _ _) :: r => noBuyExcluded acc r
  | Event.purchased _ :: r => noBuyExcluded acc r
  | Event.completed _ :: r => noBuyExcluded acc r
  | Event.storeAdd _ _ :: r => noBuyExcluded acc r

theorem mem_addUsed {c d : String} {l : List String} :
    c ∈ addUsed d l ↔ c = d ∨ c ∈ l := by
  unfold addUsed
  split
  · constructor
    · exact Or.inr
    · rintro (rfl | h)
      · assumption
      · exact h
  · simp [or_comm]

theorem excludedAfter_append (acc : List String) (t₁ t₂ : List Event) :
    excludedAfter acc (t₁ ++ t₂) = excludedAfter (excludedAfter acc t₁) t₂ := by
  induction t₁ generalizing acc with
  | nil => rfl
  | cons e r ih =>
      cases e with
      | call c => cases c <;> simpa [excludedAfter] using ih _
      | purchased a => simpa [excludedAfter] using ih _
      | exclude c => simpa [excludedAfter] using ih _
      | completed a => simpa [excludedAfter] using ih _
      | storeAdd p s => simpa [excludedAfter] using ih _

theorem mem_excludedAfter (c : String) (tr : List Event) :
    ∀ acc : List String, c ∈ excludedAfter acc tr ↔ c ∈ acc ∨ c ∈ excludedAfter [] tr := by
  induction tr with
  | nil => intro acc; simp [excludedAfter]
  | cons e r ih =>
      intro acc
      cases e with
      | call cc => cases cc <;> exact ih acc
      | purchased a => exact ih acc
      | exclude d =>
          show c ∈ excludedAfter (addUsed d acc) r ↔
            c ∈ acc ∨ c ∈ excludedAfter (addUsed d []) r
          rw [ih (addUsed d acc), ih (addUsed d [])]
          simp only [mem_addUsed, List.not_mem_nil, or_false]
          tauto
      | completed a => exact ih acc
      | storeAdd p s => exact ih acc

theorem noBuyExcluded_congr {u v : List String} (h : ∀ c, c ∈ u ↔ c ∈ v) :
    ∀ tr : List Event, noBuyExcluded u tr = noBuyExcluded v tr := by
  intro tr
  induction tr generalizing u v with
  | nil => rfl
  | cons e r ih =>
      cases e with
      | call cc =>
          cases cc with
          | getSmsCode a => simpa [noBuyExcluded] using ih h
          | buyNumber s c =>
              simp only [noBuyExcluded]
              rw [decide_eq_decide.mpr (h c), ih h]
          | setStatus a s => simpa [noBuyExcluded] using ih h
      | purchased a => simpa [noBuyExcluded] using ih h
      | exclude d =>
          simp only [noBuyExcluded]
          exact ih (fun c => by rw [mem_addUsed, mem_addUsed, h c])
      | completed a => simpa [noBuyExcluded] using ih h
      | storeAdd p s => simpa [noBuyExcluded] using ih h

theorem noBuyExcluded_append (acc : List String) (t₁ t₂ : List Event) :
    noBuyExcluded acc (t₁ ++ t₂)
      = (noBuyExcluded acc t₁ && noBuyExcluded (excludedAfter acc t₁) t₂) := by
  induction t₁ generalizing acc with
  | nil => simp [noBuyExcluded, excludedAfter]
  | cons e r ih =>
      cases e with
      | call cc =>
          cases cc with
          | getSmsCode a => simpa [noBuyExcluded, excludedAfter] using ih acc
          | buyNumber s c =>
              simp only [List.cons_append, noBuyExcluded, excludedAfter, List.append_eq,
                ih acc, Bool.and_assoc]
          | setStatus a s => simpa [noBuyExcluded, excludedAfter] using ih acc
      | purchased a => simpa [noBuyExcluded, excludedAfter] using ih acc
      | exclude d => simpa [noBuyExcluded, excludedAfter] using ih (addUsed d acc)
      | completed a => simpa [noBuyExcluded, excludedAfter] using ih acc
      | storeAdd p s => simpa [noBuyExcluded, excludedAfter] using ih acc

/-- One-step relation for claim C5: the trace grows by a suffix whose
`buy_number` calls all avoid the exclusion set current at the call, and the
exclusion set after the step is exactly the one before plus the countries
excluded in the suffix. -/
def StepOk (st st' : OrchState) : Prop :=
  ∃ tr, st'.trace = st.trace ++ tr ∧
    noBuyExcluded st.used_countries tr = true ∧
    (∀ c, c ∈ st'.used_countries ↔ c ∈ st.used_countries ∨ c ∈ excludedAfter [] tr)

theorem stepOk_of_eq {st st' : OrchState}
    (htr : st'.trace = st.trace) (hu : st'.used_countries = st.used_countries) :
    StepOk st st' :=
  ⟨[], by simp [htr], rfl, by simp [hu, excludedAfter]⟩

theorem StepOk.trans {st₁ st₂ st₃ : OrchState}
    (h₁ : StepOk st₁ st₂) (h₂ : StepOk st₂ st₃) : StepOk st₁ st₃ := by
  obtain ⟨t₁, htr₁, hnb₁, hu₁⟩ := h₁
  obtain ⟨t₂, htr₂, hnb₂, hu₂⟩ := h₂
  refine ⟨t₁ ++ t₂, by rw [htr₂, htr₁, List.append_assoc], ?_, ?_⟩
  · rw [noBuyExcluded_append, hnb₁, Bool.true_and]
    rw [← hnb₂]
    apply noBuyExcluded_congr
    intro c
    rw [hu₁ c, mem_excludedAfter]
  · intro c
    rw [hu₂ c, hu₁ c, excludedAfter_append,
      mem_excludedAfter c t₂ (excludedAfter [] t₁)]
    tauto

theorem stepOk_logCall_safe {st : OrchState} {c : ApiCall}
    (h : noBuyExcluded st.used_countries [Event.call c] = true) :
    StepOk st (logCall c st) := by
  refine ⟨[Event.call c], rfl, h, ?_⟩
  intro x
  cases c <;> simp [logCall, logEvent, excludedAfter]

theorem stepOk_logCall_getSmsCode (st : OrchState) (aid : String) :
    StepOk st (logCall (ApiCall.getSmsCode aid) st) :=
  stepOk_logCall_safe (by simp [noBuyExcluded])

theorem stepOk_logCall_setStatus (st : OrchState) (aid : String) (s : Nat) :
    StepOk st (logCall (ApiCall.setStatus aid s) st) :=
  stepOk_logCall_safe (by simp [noBuyExcluded])

theorem stepOk_logCall_buy {st : OrchState} {s c : String}
    (h : c ∉ st.used_countries) :
    StepOk st (logCall (ApiCall.buyNumber s c) st) :=
  stepOk_logCall_safe (by simp [noBuyExcluded, h])

theorem stepOk_logEvent_purchased (st : OrchState) (aid : String) :
    StepOk st (logEvent (Event.purchased aid) st) :=
  ⟨[Event.purchased aid], rfl, rfl, by simp [logEvent, excludedAfter]⟩

theorem stepOk_logEvent_completed (st : OrchState) (aid : String) :
    StepOk st (logEvent (Event.completed aid) st) :=
  ⟨[Event.completed aid], rfl, rfl, by simp [logEvent, excludedAfter]⟩

theorem stepOk_logEvent_storeAdd (st : OrchState) (p s : String) :
    StepOk st (logEvent (Event.storeAdd p s) st) :=
  ⟨[Event.storeAdd p s], rfl, rfl, by simp [logEvent, excludedAfter]⟩

theorem stepOk_excludeCountry (st : OrchState) (c : String) :
    StepOk st (excludeCountry c st) := by
  refine ⟨[Event.exclude c], rfl, by simp [noBuyExcluded], ?_⟩
  intro x
  simp [excludeCountry, excludedAfter, mem_addUsed]
  tauto

/-! ### Frame lemmas: effects of the helper routines on the tracked state -/

/-- Invariant tying the live activation to the cached phone number: whenever
an activation is held, `self.phone_number` is its phone number, and its
identifying fields are truthy (they came from a validated purchase). -/
def ActInv (st : OrchState) : Prop :=
  ∀ a, st.current_activation = some a →
    st.phone_number = some a.phone_number ∧ a.phone_number ≠ "" ∧
    a.activation_id ≠ "" ∧ a.country_code ≠ ""

/-- Common frame of the driver-level helpers: the trace grows according to
the C5 discipline, the reuse store is untouched, the held activation is
either kept or cleared (never replaced), and the cached phone number is
unchanged. -/
def Frame (st st' : OrchState) : Prop :=
  StepOk st st' ∧ st'.store = st.store ∧
    (st'.current_activation = st.current_activation ∨ st'.current_activation = none) ∧
    st'.phone_number = st.phone_number

theorem frame_of_eq {st st' : OrchState}
    (h1 : st'.trace = st.trace) (h2 : st'.used_countries = st.used_countries)
    (h3 : st'.store = st.store) (h4 : st'.current_activation = st.current_activation)
    (h5 : st'.phone_number = st.phone_number) : Frame st st' :=
  ⟨stepOk_of_eq h1 h2, h3, Or.inl h4, h5⟩

theorem Frame.refl (st : OrchState) : Frame st st :=
  frame_of_eq rfl rfl rfl rfl rfl

theorem Frame.comp {st₁ st₂ st₃ : OrchState}
    (h : Frame st₁ st₂) (h' : Frame st₂ st₃) : Frame st₁ st₃ := by
  obtain ⟨s1, e1, a1, p1⟩ := h
  obtain ⟨s2, e2, a2, p2⟩ := h'
  refine ⟨s1.trans s2, e2.trans e1, ?_, p2.trans p1⟩
  rcases a2 with a2 | a2
  · rw [a2]; exact a1
  · exact Or.inr a2

theorem Frame.actInv {st st' : OrchState} (h : Frame st st') (hi : ActInv st) :
    ActInv st' := by
  intro a ha
  rcases h.2.2.1 with heq | hnone
  · rw [heq] at ha
    rw [h.2.2.2]
    exact hi a ha
  · rw [hnone] at ha
    exact absurd ha (by simp)

theorem frame_bump (st : OrchState) : Frame st (bump st) :=
  frame_of_eq rfl rfl rfl rfl rfl

theorem frame_logCall_getSmsCode (st : OrchState) (aid : String) :
    Frame st (logCall (ApiCall.getSmsCode aid) st) :=
  ⟨stepOk_logCall_getSmsCode st aid, rfl, Or.inl rfl, rfl⟩

theorem frame_logCall_setStatus (st : OrchState) (aid : String) (s : Nat) :
    Frame st (logCall (ApiCall.setStatus aid s) st) :=
  ⟨stepOk_logCall_setStatus st aid s, rfl, Or.inl rfl, rfl⟩

theorem frame_excludeCountry (st : OrchState) (c : String) :
    Frame st (excludeCountry c st) :=
  ⟨stepOk_excludeCountry st c, rfl, Or.inl rfl, rfl⟩

theorem frame_clearActivation (st : OrchState) :
    Frame st { st with current_activation := none } :=
  ⟨stepOk_of_eq rfl rfl, rfl, Or.inr rfl, rfl⟩

theorem frame_cancel_number (st : OrchState) : Frame st (cancel_number st) := by
  simp only [cancel_number]
  split
  · exact Frame.refl st
  · split
    · exact Frame.refl st
    · exact ((frame_logCall_setStatus st _ 6).comp
        (frame_excludeCountry _ _)).comp (frame_clearActivation _)

theorem frame_cancel_current_number (st : OrchState) :
    Frame st (cancel_current_number st) := by
  simp only [cancel_current_number]
  split
  · exact Frame.refl st
  · exact ((frame_excludeCountry st _).comp
      (frame_logCall_setStatus _ _ 6)).comp (frame_clearActivation _)

theorem frame_check_phone_screen (env : Env) (st : OrchState) :
    Frame st (check_phone_screen env st).2 := frame_bump st

theorem frame_validate_initial_conditions (env : Env) (st : OrchState) :
    Frame st (validate_initial_conditions env st).2 := by
  unfold validate_initial_conditions check_number_availability
  cases env.balance with
  | none => exact Frame.refl st
  | some b =>
      simp only
      split
      · exact Frame.refl st
      · exact Frame.refl st

theorem findPhoneField_state (env : Env) :
    ∀ (k : Nat) (st : OrchState), ∃ t, (findPhoneField env st k).2 = { st with tick := t } := by
  intro k
  induction k with
  | zero => intro st; exact ⟨st.tick, rfl⟩
  | succ k ih =>
      intro st
      simp only [findPhoneField]
      split
      · exact ⟨st.tick + 1, rfl⟩
      · obtain ⟨t, ht⟩ := ih (bump st)
        exact ⟨t, ht⟩

theorem frame_findPhoneField (env : Env) (k : Nat) (st : OrchState) :
    Frame st (findPhoneField env st k).2 := by
  obtain ⟨t, ht⟩ := findPhoneField_state env k st
  rw [ht]
  exact frame_of_eq rfl rfl rfl rfl rfl

theorem submitFormats_state (env : Env) :
    ∀ (k : Nat) (st : OrchState), ∃ t, (submitFormats env st k).2 = { st with tick := t } := by
  intro k
  induction k with
  | zero => intro st; exact ⟨st.tick, rfl⟩
  | succ k ih =>
      intro st
      simp only [submitFormats]
      split
      · obtain ⟨t, ht⟩ := ih (bump st)
        exact ⟨t, ht⟩
      · split
        · exact ⟨st.tick + 1, rfl⟩
        · split
          · obtain ⟨t, ht⟩ := ih (bump st)
            exact ⟨t, ht⟩
          · split
            · obtain ⟨t, ht⟩ := ih (bump st)
              exact ⟨t, ht⟩
            · exact ⟨st.tick + 1, rfl⟩

theorem findCodeField_state (env : Env) :
    ∀ (k : Nat) (st : OrchState), ∃ t, (findCodeField env st k).2 = { st with tick := t } := by
  intro k
  induction k with
  | zero => intro st; exact ⟨st.tick, rfl⟩
  | succ k ih =>
      intro st
      simp only [findCodeField]
      split
      · exact ⟨st.tick + 1, rfl⟩
      · obtain ⟨t, ht⟩ := ih (bump st)
        exact ⟨t, ht⟩

theorem frame_findCodeField (env : Env) (k : Nat) (st : OrchState) :
    Frame st (findCodeField env st k).2 := by
  obtain ⟨t, ht⟩ := findCodeField_state env k st
  rw [ht]
  exact frame_of_eq rfl rfl rfl rfl rfl

theorem frame_submit_phone_number (env : Env) (st : OrchState) :
    Frame st (submit_phone_number env st).2 := by
  unfold submit_phone_number
  cases hact : st.current_activation with
  | none => exact Frame.refl st
  | some act =>
      simp only
      split
      · exact frame_bump st
      · split
        · exact (frame_bump st).comp (frame_findPhoneField env 3 (bump st))
        · have h1 : Frame st (findPhoneField env (bump st) 3).2 :=
            (frame_bump st).comp (frame_findPhoneField env 3 (bump st))
          have h2 : Frame st (submitFormats env (findPhoneField env (bump st) 3).2 2).2 :=
            h1.comp (by
              obtain ⟨t, ht⟩ := submitFormats_state env 2 (findPhoneField env (bump st) 3).2
              rw [ht]
              exact frame_of_eq rfl rfl rfl rfl rfl)
          split
          · exact h2
          · exact h2.comp (frame_cancel_number _)

theorem frame_get_sms_code (env : Env) (aid : String) (st : OrchState) :
    Frame st (get_sms_code env aid st).2 := by
  unfold get_sms_code
  cases houtcome : env.smsOutcome (logCall (ApiCall.getSmsCode aid) st).tick with
  | code c =>
      simp only [houtcome]
      exact ((frame_logCall_getSmsCode st aid).comp (frame_bump _)).comp
        (frame_logCall_setStatus _ aid 3)
  | cancelled =>
      simp only [houtcome]
      exact (frame_logCall_getSmsCode st aid).comp (frame_bump _)
  | timeout =>
      simp only [houtcome]
      exact ((frame_logCall_getSmsCode st aid).comp (frame_bump _)).comp
        (frame_logCall_setStatus _ aid 6)

theorem Frame.thenBump {st st' : OrchState} (h : Frame st st') : Frame st (bump st') :=
  h.comp (frame_bump st')

theorem Frame.thenSubmit {st st' : OrchState} (h : Frame st st') (env : Env) :
    Frame st (submit_phone_number env st').2 :=
  h.comp (frame_submit_phone_number env st')

theorem Frame.thenGetSms {st st' : OrchState} (h : Frame st st') (env : Env) (aid : String) :
    Frame st (get_sms_code env aid st').2 :=
  h.comp (frame_get_sms_code env aid st')

theorem frame_resendIteration (env : Env) (aid : String) (code : Option String)
    (st : OrchState) : Frame st (resendIteration env aid code st).2.2 := by
  unfold resendIteration
  dsimp only
  split
  · exact frame_bump st
  · split
    · exact (frame_bump st).thenBump
    · split
      · exact (frame_bump st).thenBump.thenBump.thenBump
      · split
        · exact (frame_bump st).thenBump.thenBump.thenBump
        · split
          · exact (frame_bump st).thenBump.thenBump.thenBump.thenBump
          · split
            · split
              · exact ((frame_bump st).thenBump.thenBump.thenBump.thenBump.thenBump).thenSubmit
                  env
              · split
                · exact (((frame_bump st).thenBump.thenBump.thenBump.thenBump.thenBump).thenSubmit
                    env).thenBump
                · exact ((((frame_bump st).thenBump.thenBump.thenBump.thenBump.thenBump).thenSubmit
                    env).thenBump).thenGetSms env aid
            · split
              · exact
                  (frame_bump st).thenBump.thenBump.thenBump.thenBump.thenBump.thenBump.thenBump
              · exact
                  ((frame_bump st).thenBump.thenBump.thenBump.thenBump.thenBump.thenBump.thenBump).thenGetSms
                    env aid

theorem frame_resendLoop (env : Env) (aid : String) :
    ∀ (fuel : Nat) (code : Option String) (st : OrchState),
      Frame st (resendLoop env aid fuel code st).2 := by
  intro fuel
  induction fuel with
  | zero => intro code st; exact Frame.refl st
  | succ fuel ih =>
      intro code st
      unfold resendLoop
      split
      · exact Frame.refl st
      · dsimp only
        split
        · exact frame_bump st
        · split
          · exact ((frame_bump st).comp (frame_resendIteration env aid code _)).comp
              (ih _ _)
          · exact (frame_bump st).comp (frame_resendIteration env aid code _)

/-! ### The purchase loop and the candidate list -/

theorem insertByKey_perm {α β : Type} [LinearOrder β] (k : α → β) (a : α) (l : List α) :
    (insertByKey k a l).Perm (a :: l) := by
  induction l with
  | nil => exact List.Perm.refl _
  | cons b l ih =>
      simp only [insertByKey]
      split
      · exact (ih.cons b).trans (List.Perm.swap a b l)
      · exact List.Perm.refl _

theorem isortByKey_perm {α β : Type} [LinearOrder β] (k : α → β) (l : List α) :
    (isortByKey k l).Perm l := by
  induction l with
  | nil => exact List.Perm.refl _
  | cons a l ih =>
      exact (insertByKey_perm k a (isortByKey k l)).trans (ih.cons a)

theorem filterMap_price_fst_sublist (prices : List (String × ℚ)) :
    ∀ l : List String,
      ((l.filterMap (fun c => (lookupPrice prices c).map (fun cost => (c, cost)))).map
        Prod.fst).Sublist l := by
  intro l
  induction l with
  | nil => simp
  | cons c r ih =>
      simp only [List.filterMap_cons]
      cases lookupPrice prices c with
      | none => exact ih.cons c
      | some q => simpa using ih.cons₂ c

theorem mem_candidateCountries {prices : List (String × ℚ)} {used : List String}
    {p : String × ℚ} (h : p ∈ candidateCountries prices used) :
    p.1 ∈ selected_countries.map Prod.fst ∧ p.1 ∉ used := by
  unfold candidateCountries at h
  have hmem := (isortByKey_perm (fun x : String × ℚ => x.2) _).mem_iff.mp h
  rcases List.mem_filterMap.mp hmem with ⟨c, hc, hf⟩
  have hc1 : p.1 = c := by
    cases hlp : lookupPrice prices c with
    | none => rw [hlp] at hf; exact absurd hf (by simp)
    | some q =>
        rw [hlp] at hf
        simp only [Option.map_some', Option.some.injEq] at hf
        rw [← hf]
  have := List.mem_filter.mp hc
  refine ⟨by rw [hc1]; exact this.1, by rw [hc1]; simpa using this.2⟩

theorem nodup_candidateCountries (prices : List (String × ℚ)) (used : List String) :
    ((candidateCountries prices used).map Prod.fst).Nodup := by
  have hperm : ((candidateCountries prices used).map Prod.fst).Perm
      ((((selected_countries.map Prod.fst).filter (fun c => !(used.contains c))).filterMap
        (fun c => (lookupPrice prices c).map (fun cost => (c, cost)))).map Prod.fst) :=
    (isortByKey_perm (fun p => p.2) _).map Prod.fst
  refine hperm.nodup_iff.mpr ?_
  refine (filterMap_price_fst_sublist prices _).nodup ?_
  exact List.Nodup.filter _ (by decide)

/-- Behaviour of the purchase loop on a candidate list whose countries are
distinct and not yet excluded: the trace discipline holds, the store and the
held activation are untouched, and a successful purchase hands back a
validated activation from one of the candidates, caching its phone number. -/
theorem buyLoop_spec (env : Env) :
    ∀ (l : List (String × ℚ)) (st : OrchState),
      (l.map Prod.fst).Nodup →
      (∀ c ∈ l.map Prod.fst, c ∉ st.used_countries) →
      StepOk st (buyLoop env st l).2 ∧
      (buyLoop env st l).2.store = st.store ∧
      (buyLoop env st l).2.current_activation = st.current_activation ∧
      (buyLoop env st l).2.vstate = st.vstate ∧
      (∀ a, (buyLoop env st l).1 = some a →
        (buyLoop env st l).2.phone_number = some a.phone_number ∧
        a.phone_number ≠ "" ∧ a.activation_id ≠ "" ∧ a.country_code ∈ l.map Prod.fst) ∧
      ((buyLoop env st l).1 = none →
        (buyLoop env st l).2.phone_number = st.phone_number) := by
  intro l
  induction l with
  | nil =>
      intro st _ _
      exact ⟨stepOk_of_eq rfl rfl, rfl, rfl, rfl, fun a ha => absurd ha (by simp [buyLoop]),
        fun _ => rfl⟩
  | cons cq rest ih =>
      intro st hnodup hused
      obtain ⟨c, q⟩ := cq
      have hc : c ∉ st.used_countries := hused c (by simp)
      have hstep1 : StepOk st (logCall (ApiCall.buyNumber "go" c) (bump st)) :=
        ⟨[Event.call (ApiCall.buyNumber "go" c)], rfl,
          by simp [noBuyExcluded, hc],
          by simp [logCall, logEvent, bump, excludedAfter]⟩
      have hstep2 : StepOk st (excludeCountry c (logCall (ApiCall.buyNumber "go" c) (bump st))) :=
        hstep1.trans (stepOk_excludeCountry _ c)
      have hrest : ∀ st' : OrchState,
          st'.used_countries = addUsed c st.used_countries →
          ∀ c' ∈ rest.map Prod.fst, c' ∉ st'.used_countries := by
        intro st' hu c' hc' hmem
        rw [hu] at hmem
        rcases mem_addUsed.mp hmem with rfl | hmem
        · exact (List.nodup_cons.mp (by simpa using hnodup)).1 hc'
        · exact hused c' (by simp [hc']) hmem
      simp only [buyLoop]
      cases hbuy : env.buy st.tick with
      | none =>
          simp only
          obtain ⟨ihS, ihStore, ihAct, ihV, ihSome, ihNone⟩ :=
            ih (excludeCountry c (logCall (ApiCall.buyNumber "go" c) (bump st)))
              (List.nodup_cons.mp (by simpa using hnodup)).2
              (hrest _ rfl)
          refine ⟨hstep2.trans ihS, ihStore, ihAct, ihV, ?_, ihNone⟩
          intro a ha
          obtain ⟨h1, h2, h3, h4⟩ := ihSome a ha
          exact ⟨h1, h2, h3, by simp [h4]⟩
      | some idPhone =>
          obtain ⟨aid, phone⟩ := idPhone
          simp only
          split
          · obtain ⟨ihS, ihStore, ihAct, ihV, ihSome, ihNone⟩ :=
              ih (excludeCountry c (logCall (ApiCall.buyNumber "go" c) (bump st)))
                (List.nodup_cons.mp (by simpa using hnodup)).2
                (hrest _ rfl)
            refine ⟨hstep2.trans ihS, ihStore, ihAct, ihV, ?_, ihNone⟩
            intro a ha
            obtain ⟨h1, h2, h3, h4⟩ := ihSome a ha
            exact ⟨h1, h2, h3, by simp [h4]⟩
          · rename_i hne
            push_neg at hne
            refine ⟨?_, rfl, rfl, rfl, ?_, ?_⟩
            · have hB : StepOk st
                  { bump (logCall (ApiCall.buyNumber "go" c) (bump st)) with
                      phone_number := some phone } :=
                hstep1.trans (stepOk_of_eq rfl rfl)
              exact hB.trans (stepOk_logEvent_purchased _ aid)
            · intro a ha
              simp only [Option.some.injEq] at ha
              subst ha
              exact ⟨rfl, hne.2, hne.1, by simp⟩
            · intro hnone
              exact absurd hnone (by simp)

theorem selected_countries_ne_empty :
    ∀ c ∈ selected_countries.map Prod.fst, ¬(c = "") := by decide

/-- Behaviour of `_get_new_number`: trace discipline, store and activation
untouched, and a successful acquisition yields a validated activation for an
allow-listed, non-excluded country, caching its phone number. -/
theorem get_new_number_spec (env : Env) (st : OrchState) :
    StepOk st (get_new_number env st).2 ∧
    (get_new_number env st).2.store = st.store ∧
    (get_new_number env st).2.current_activation = st.current_activation ∧
    (get_new_number env st).2.vstate = st.vstate ∧
    (∀ a, (get_new_number env st).1 = some a →
      (get_new_number env st).2.phone_number = some a.phone_number ∧
      a.phone_number ≠ "" ∧ a.activation_id ≠ "" ∧
      a.country_code ∈ selected_countries.map Prod.fst ∧
      a.country_code ∉ st.used_countries) ∧
    ((get_new_number env st).1 = none →
      (get_new_number env st).2.phone_number = st.phone_number) := by
  unfold get_new_number
  dsimp only
  split
  · exact ⟨stepOk_of_eq rfl rfl, rfl, rfl, rfl, fun a ha => absurd ha (by simp),
      fun _ => rfl⟩
  · cases hpr : env.prices st.tick with
    | none =>
        simp only
        exact ⟨stepOk_of_eq rfl rfl, rfl, rfl, rfl, fun a ha => absurd ha (by simp),
          fun _ => rfl⟩
    | some prices =>
        simp only
        split
        · exact ⟨stepOk_of_eq rfl rfl, rfl, rfl, rfl, fun a ha => absurd ha (by simp),
            fun _ => rfl⟩
        · split
          · exact ⟨stepOk_of_eq rfl rfl, rfl, rfl, rfl, fun a ha => absurd ha (by simp),
              fun _ => rfl⟩
          · have hmemprop : ∀ c ∈ (candidateCountries prices (bump st).used_countries).map
                Prod.fst, c ∈ selected_countries.map Prod.fst ∧ c ∉ st.used_countries := by
              intro c hcmem
              rcases List.mem_map.mp hcmem with ⟨p, hp, rfl⟩
              exact mem_candidateCountries hp
            obtain ⟨ihS, ihStore, ihAct, ihV, ihSome, ihNone⟩ :=
              buyLoop_spec env (candidateCountries prices (bump st).used_countries) (bump st)
                (nodup_candidateCountries prices _)
                (fun c hc => (hmemprop c hc).2)
            refine ⟨(stepOk_of_eq rfl rfl).trans ihS, ihStore, ihAct, ihV, ?_, ihNone⟩
            intro a ha
            obtain ⟨h1, h2, h3, h4⟩ := ihSome a ha
            exact ⟨h1, h2, h3, (hmemprop _ h4).1, (hmemprop _ h4).2⟩

/-! ### Composite effects of the orchestrator phases -/

theorem actInv_of_eqs {st st' : OrchState}
    (ha : st'.current_activation = st.current_activation)
    (hp : st'.phone_number = st.phone_number) (hi : ActInv st) : ActInv st' := by
  intro a h
  rw [ha] at h
  rw [hp]
  exact hi a h

theorem frame_logEvent_completed (st : OrchState) (aid : String) :
    Frame st (logEvent (Event.completed aid) st) :=
  ⟨stepOk_logEvent_completed st aid, rfl, Or.inl rfl, rfl⟩

theorem storeNumber_effects (env : Env) (st : OrchState) :
    StepOk st (storeNumber env st) ∧
    (storeNumber env st).current_activation = st.current_activation ∧
    (storeNumber env st).phone_number = st.phone_number ∧
    (storeNumber env st).vstate = st.vstate := by
  unfold storeNumber
  split
  · exact ⟨stepOk_of_eq rfl rfl, rfl, rfl, rfl⟩
  · split
    · exact ⟨stepOk_of_eq rfl rfl, rfl, rfl, rfl⟩
    · dsimp only
      split
      · refine ⟨?_, rfl, rfl, rfl⟩
        refine StepOk.trans ?_ (stepOk_logEvent_storeAdd _ _ _)
        exact stepOk_of_eq rfl rfl
      · exact ⟨stepOk_of_eq rfl rfl, rfl, rfl, rfl⟩

theorem sframe_submitCode (env : Env) (aid : String) (st : OrchState) :
    StepOk st (submitCode env aid st).2 ∧
    (ActInv st → ActInv (submitCode env aid st).2) := by
  unfold submitCode
  dsimp only
  split
  · have h := (frame_findCodeField env 3 st).comp (frame_cancel_current_number _)
    exact ⟨h.1, h.actInv⟩
  · split
    · have h := ((frame_findCodeField env 3 st).thenBump).comp
        (frame_cancel_current_number _)
      exact ⟨h.1, h.actInv⟩
    · split
      · have h := ((frame_findCodeField env 3 st).thenBump.thenBump).comp
          (frame_cancel_current_number _)
        exact ⟨h.1, h.actInv⟩
      · have hA : Frame st (logEvent (Event.completed aid)
            { logCall (ApiCall.setStatus aid 8) (bump (bump (findCodeField env st 3).2)) with
                vstate := VerificationState.COMPLETED }) :=
          (((((frame_findCodeField env 3 st).thenBump.thenBump).comp
            (frame_logCall_setStatus _ aid 8)).comp
              (frame_of_eq rfl rfl rfl rfl rfl)).comp (frame_logEvent_completed _ aid))
        have hS := storeNumber_effects env (logEvent (Event.completed aid)
            { logCall (ApiCall.setStatus aid 8) (bump (bump (findCodeField env st 3).2)) with
                vstate := VerificationState.COMPLETED })
        refine ⟨hA.1.trans hS.1, ?_⟩
        intro hi
        exact actInv_of_eqs hS.2.1 hS.2.2.1 (hA.actInv hi)

theorem sframe_handle_sms_verification (env : Env) (st : OrchState) :
    StepOk st (handle_sms_verification env st).2 ∧
    (ActInv st → ActInv (handle_sms_verification env st).2) := by
  unfold handle_sms_verification
  split
  · exact ⟨stepOk_of_eq rfl rfl, fun hi => hi⟩
  · rename_i act hact
    dsimp only
    have h0 : Frame st { st with vstate := VerificationState.WAITING_SMS } :=
      frame_of_eq rfl rfl rfl rfl rfl
    have h1 : Frame st (get_sms_code env act.activation_id
        { st with vstate := VerificationState.WAITING_SMS }).2 :=
      h0.thenGetSms env act.activation_id
    have h2 : Frame st (resendLoop env act.activation_id 2
        (get_sms_code env act.activation_id
          { st with vstate := VerificationState.WAITING_SMS }).1
        (get_sms_code env act.activation_id
          { st with vstate := VerificationState.WAITING_SMS }).2).2 :=
      h1.comp (frame_resendLoop env act.activation_id 2 _ _)
    split
    · have h := h2.comp (frame_cancel_current_number _)
      exact ⟨h.1, h.actInv⟩
    · split
      · have h := (h2.thenBump).comp (frame_cancel_current_number _)
        exact ⟨h.1, h.actInv⟩
      · have h3 := h2.thenBump
        exact ⟨h3.1.trans (sframe_submitCode env act.activation_id _).1,
          fun hi => (sframe_submitCode env act.activation_id _).2 (h3.actInv hi)⟩

theorem sframe_cycleCore (env : Env) (st : OrchState) :
    StepOk st (cycleCore env st).2 ∧ ActInv (cycleCore env st).2 := by
  unfold cycleCore
  dsimp only
  obtain ⟨gS, gStore, gAct, gV, gSome, gNone⟩ := get_new_number_spec env st
  have hmidS : StepOk st { (get_new_number env st).2 with
      current_activation := (get_new_number env st).1 } := by
    refine StepOk.trans gS (stepOk_of_eq rfl rfl)
  have hmidInv : ActInv { (get_new_number env st).2 with
      current_activation := (get_new_number env st).1 } := by
    intro a ha
    simp only at ha
    obtain ⟨h1, h2, h3, h4, h5⟩ := gSome a ha
    exact ⟨h1, h2, h3, selected_countries_ne_empty _ h4⟩
  split
  · exact ⟨hmidS, hmidInv⟩
  · split
    · have h := frame_submit_phone_number env
        { (get_new_number env st).2 with current_activation := (get_new_number env st).1 }
      exact ⟨hmidS.trans h.1, h.actInv hmidInv⟩
    · have h := frame_submit_phone_number env
        { (get_new_number env st).2 with current_activation := (get_new_number env st).1 }
      exact ⟨(hmidS.trans h.1).trans (sframe_handle_sms_verification env _).1,
        (sframe_handle_sms_verification env _).2 (h.actInv hmidInv)⟩

theorem sframe_try_verification_cycle (env : Env) (st : OrchState) :
    StepOk st (try_verification_cycle env st).2 ∧
    ActInv (try_verification_cycle env st).2 := by
  unfold try_verification_cycle
  dsimp only
  split
  · exact sframe_cycleCore env st
  · have h := sframe_cycleCore env (check_phone_screen env st).2
    exact ⟨StepOk.trans (stepOk_of_eq rfl rfl) h.1, h.2⟩

theorem sframe_attemptLoop (env : Env) :
    ∀ (fuel count : Nat) (st : OrchState),
      StepOk st (attemptLoop env fuel count st).2 ∧
      (ActInv st → ActInv (attemptLoop env fuel count st).2) := by
  intro fuel
  induction fuel with
  | zero => intro count st; exact ⟨stepOk_of_eq rfl rfl, fun hi => hi⟩
  | succ fuel ih =>
      intro count st
      unfold attemptLoop
      dsimp only
      split
      · split
        · have h := ih (count + 1) (bump st)
          exact ⟨StepOk.trans (stepOk_of_eq rfl rfl) h.1, fun hi => h.2 hi⟩
        · split
          · have h := sframe_try_verification_cycle env (bump st)
            exact ⟨StepOk.trans (stepOk_of_eq rfl rfl) h.1, fun _ => h.2⟩
          · have h := sframe_try_verification_cycle env (bump st)
            have h2 := ih (count + 1) (try_verification_cycle env (bump st)).2
            exact ⟨(StepOk.trans (stepOk_of_eq rfl rfl) h.1).trans h2.1,
              fun _ => h2.2 h.2⟩
      · split
        · have h := sframe_try_verification_cycle env st
          exact ⟨h.1, fun _ => h.2⟩
        · have h := sframe_try_verification_cycle env st
          have h2 := ih (count + 1) (try_verification_cycle env st).2
          exact ⟨h.1.trans h2.1, fun _ => h2.2 h.2⟩

theorem sframe_handle_verification_core (env : Env) (st : OrchState) :
    StepOk st (handle_verification_core env st).2 ∧
    (ActInv st → ActInv (handle_verification_core env st).2) := by
  unfold handle_verification_core
  dsimp only
  split
  · have h := frame_check_phone_screen env st
    exact ⟨h.1, h.actInv⟩
  · split
    · have h := (frame_check_phone_screen env st).comp
        (frame_validate_initial_conditions env _)
      exact ⟨h.1, h.actInv⟩
    · have h := (frame_check_phone_screen env st).comp
        (frame_validate_initial_conditions env _)
      have h2 := sframe_attemptLoop env 3 0
        (validate_initial_conditions env (check_phone_screen env st).2).2
      exact ⟨h.1.trans h2.1, fun hi => h2.2 (h.actInv hi)⟩

theorem frame_ensure_final_cleanup (st : OrchState) :
    Frame st (ensure_final_cleanup st) := by
  unfold ensure_final_cleanup
  split
  · exact Frame.refl st
  · exact frame_cancel_number st

theorem sframe_handle_verification (env : Env) (st : OrchState) :
    StepOk st (handle_verification env st).2 ∧
    (ActInv st → ActInv (handle_verification env st).2) := by
  unfold handle_verification
  dsimp only
  have h := sframe_handle_verification_core env st
  have h2 := frame_ensure_final_cleanup (handle_verification_core env st).2
  exact ⟨h.1.trans h2.1, fun hi => h2.actInv (h.2 hi)⟩

theorem subset_excludedAfter {c : String} : ∀ (tr : List Event) (acc : List String),
    c ∈ acc → c ∈ excludedAfter acc tr := by
  intro tr
  induction tr with
  | nil => intro acc h; exact h
  | cons e r ih =>
      intro acc h
      cases e with
      | call cc => cases cc <;> exact ih acc h
      | purchased a => exact ih acc h
      | exclude d => exact ih (addUsed d acc) (mem_addUsed.mpr (Or.inr h))
      | completed a => exact ih acc h
      | storeAdd p s => exact ih acc h

/-- From the trace discipline: a country excluded at some point of the trace
is never the target of a later `buy_number` call. -/
theorem noBuyExcluded_no_late_buy {acc : List String} {tr l₁ l₂ l₃ : List Event}
    {c s c' : String}
    (hnb : noBuyExcluded acc tr = true)
    (hdecomp : tr = l₁ ++ Event.exclude c :: l₂ ++
      Event.call (ApiCall.buyNumber s c') :: l₃) :
    c' ≠ c := by
  subst hdecomp
  rw [noBuyExcluded_append] at hnb
  obtain ⟨-, h2⟩ := by simpa only [Bool.and_eq_true] using hnb
  have h2' : (!decide (c' ∈ excludedAfter acc (l₁ ++ Event.exclude c :: l₂))
      && noBuyExcluded (excludedAfter acc (l₁ ++ Event.exclude c :: l₂)) l₃) = true := h2
  obtain ⟨hnotin, -⟩ := by simpa only [Bool.and_eq_true] using h2'
  intro hceq
  subst hceq
  have hin : c' ∈ excludedAfter acc (l₁ ++ Event.exclude c' :: l₂) := by
    rw [excludedAfter_append]
    show c' ∈ excludedAfter (addUsed c' (excludedAfter acc l₁)) l₂
    exact subset_excludedAfter l₂ _ (mem_addUsed.mpr (Or.inl rfl))
  simp [hin] at hnotin

/-- C5: over one full `handle_verification` run from a fresh instance, the
exclusion set is exactly the accumulation of the exclusion events of the run
(countries are only ever added, never removed: the set is the monotone replay
of the `exclude` events), every `buy_number` call targets a country outside
the exclusion set as it stood at the moment of the call, and consequently a
country that entered the exclusion set is never targeted by any later
`buy_number` call of the same run. -/
theorem exclusion_set_monotone (env : Env) (pm : Option (List ReusableNumber)) :
    noBuyExcluded [] (handle_verification env (initState pm)).2.trace = true ∧
    (∀ c, c ∈ (handle_verification env (initState pm)).2.used_countries ↔
      c ∈ excludedAfter [] (handle_verification env (initState pm)).2.trace) ∧
    (∀ (l₁ l₂ l₃ : List Event) (c s c' : String),
      (handle_verification env (initState pm)).2.trace =
        l₁ ++ Event.exclude c :: l₂ ++ Event.call (ApiCall.buyNumber s c') :: l₃ →
      c' ≠ c) := by
  obtain ⟨tr, htr, hnb, hiff⟩ := (sframe_handle_verification env (initState pm)).1
  have htr' : (handle_verification env (initState pm)).2.trace = tr := by
    simpa [initState] using htr
  have hnb' : noBuyExcluded [] (handle_verification env (initState pm)).2.trace = true := by
    rw [htr']
    exact hnb
  refine ⟨hnb', ?_, ?_⟩
  · intro c
    rw [htr']
    have := hiff c
    simpa [initState] using this
  · intro l₁ l₂ l₃ c s c' hdecomp
    exact noBuyExcluded_no_late_buy hnb' hdecomp

/-! ### Concrete oracle environments for witnesses and counterexamples -/

/-- An environment driving one clean, fully successful verification: screen
present, positive balance, stock in one country, purchases succeed (ids and
phones derived from the query counter), the SMS code arrives at once, the
code entry is accepted. -/
def envS : Env :=
  { checkScreen := fun _ => true
    balance := some 100
    numberStatus := fun _ => 1
    prices := fun _ => some [("151", 1)]
    buy := fun t => some ("id" ++ toString t, "ph" ++ toString t)
    smsOutcome := fun _ => SmsOutcome.code "123456"
    ensureScreen := fun _ => true
    pageReady := fun _ => true
    phoneFieldFound := fun _ => true
    submitProbe := fun _ => ⟨true, true, true, false, false, false⟩
    resendClick := fun _ => true
    phoneAfterResend := fun _ => false
    codeAfterResend := fun _ => true
    codeFieldFound := fun _ => true
    nextButtonOk := fun _ => true
    codeErrorDetected := fun _ => false
    elapsed := fun _ => 0
    timeNow := fun _ => 1000 }

/-- Like `envS`, except the phone-input field is never found by
`_submit_phone_number`: each attempt purchases a number and then fails the
submission on the path that does not cancel (phone field lookup exhausted,
line 414). -/
def envLeak : Env := { envS with phoneFieldFound := fun _ => false }

/-- Like `envS`, except the phone-verification screen is absent. -/
def envC6 : Env := { envS with checkScreen := fun _ => false }

/-- Like `envS`, except the account balance is zero. -/
def envC4 : Env := { envS with balance := some 0 }

/-- A reuse-store entry eligible for service "go" at the times used in the
counterexamples. -/
def reusableSeed : ReusableNumber := ⟨"r555", "151", "aid0", 0, 0, [], 1⟩

/-! ### Claim C4 -/

/-- C4: when the phone-verification screen is present and `get_balance`
reports no balance or a non-positive balance, `handle_verification` returns
failure without issuing any `buy_number` call. -/
theorem balance_guard_no_purchase (env : Env) (pm : Option (List ReusableNumber))
    (hscr : env.checkScreen 0 = true)
    (hbal : env.balance = none ∨ ∃ b, env.balance = some b ∧ b ≤ 0) :
    (handle_verification env (initState pm)).1 = false ∧
    buyCountries (handle_verification env (initState pm)).2.trace = [] := by
  rcases hbal with hb | ⟨b, hb, hble⟩
  · simp [handle_verification, handle_verification_core, check_phone_screen, bump,
      validate_initial_conditions, check_number_availability, ensure_final_cleanup,
      cancel_number, initState, hscr, hb, buyCountries]
  · simp [handle_verification, handle_verification_core, check_phone_screen, bump,
      validate_initial_conditions, check_number_availability, ensure_final_cleanup,
      cancel_number, initState, hscr, hb, hble, buyCountries]

/-- Witness for C4: the concrete zero-balance environment. -/
theorem balance_guard_no_purchase_witness :
    (handle_verification envC4 (initState none)).1 = false ∧
    buyCountries (handle_verification envC4 (initState none)).2.trace = [] :=
  balance_guard_no_purchase envC4 none rfl (Or.inr ⟨0, rfl, le_refl 0⟩)

/-! ### Claim C6 -/

/-- Counterexample for C6 as stated: with the phone screen absent the run
returns success with no purchase, but the verification state does not
transition to COMPLETED — it stays INITIAL (the early return at line 78
never touches `self.state`). -/
theorem trivial_success_state_cex :
    (handle_verification envC6 (initState none)).1 = true ∧
    buyCountries (handle_verification envC6 (initState none)).2.trace = [] ∧
    ¬((handle_verification envC6 (initState none)).2.vstate =
        VerificationState.COMPLETED) := by decide

/-- C6 amended: if the phone-verification step is not present (single bounded
probe), `handle_verification` returns success trivially with no purchase
made, and the verification state remains INITIAL (no transition to
COMPLETED occurs). -/
theorem no_phone_screen_trivial_success (env : Env) (pm : Option (List ReusableNumber))
    (h : env.checkScreen 0 = false) :
    (handle_verification env (initState pm)).1 = true ∧
    buyCountries (handle_verification env (initState pm)).2.trace = [] ∧
    (handle_verification env (initState pm)).2.vstate = VerificationState.INITIAL := by
  simp [handle_verification, handle_verification_core, check_phone_screen, bump, initState,
    ensure_final_cleanup, h, buyCountries]

/-- Witness for the amended C6 at the concrete no-screen environment. -/
theorem no_phone_screen_trivial_success_witness :
    (handle_verification envC6 (initState none)).1 = true ∧
    buyCountries (handle_verification envC6 (initState none)).2.trace = [] ∧
    (handle_verification envC6 (initState none)).2.vstate = VerificationState.INITIAL :=
  no_phone_screen_trivial_success envC6 none rfl

/-! ### Claim C2 -/

/-- C2 evaluated at the failing input: a run in which every submission fails
because the phone input is never found (a path that returns False without
cancelling, line 414).  Each of the three attempts purchases a fresh number,
overwriting `current_activation`; the finalization cancels only the last one
("id18").  The first purchase ("id2") ends the run with neither a status-8
nor a status-6 (cancel) call — contradicting the claim that every purchased
activation is set to 8 or cancelled before `handle_verification` returns. -/
theorem failure_leaves_uncancelled_purchase :
    (handle_verification envLeak (initState none)).1 = false ∧
    Event.purchased "id2" ∈ (handle_verification envLeak (initState none)).2.trace ∧
    ¬(Event.call (ApiCall.setStatus "id2" 8) ∈
        (handle_verification envLeak (initState none)).2.trace) ∧
    ¬(Event.call (ApiCall.setStatus "id2" 6) ∈
        (handle_verification envLeak (initState none)).2.trace) ∧
    Event.call (ApiCall.setStatus "id18" 6) ∈
      (handle_verification envLeak (initState none)).2.trace := by decide

/-! ### Claim C3 -/

theorem pairwise_insertByKey {α β : Type} [LinearOrder β] (k : α → β) (a : α)
    {l : List α} (h : l.Pairwise (fun x y => k x ≤ k y)) :
    (insertByKey k a l).Pairwise (fun x y => k x ≤ k y) := by
  induction l with
  | nil => simp [insertByKey]
  | cons b l ih =>
      simp only [insertByKey]
      rcases List.pairwise_cons.mp h with ⟨hb, hl⟩
      split
      · rename_i hlt
        refine List.pairwise_cons.mpr ⟨?_, ih hl⟩
        intro x hx
        rcases mem_insertByKey.mp hx with rfl | hx
        · exact le_of_lt hlt
        · exact hb x hx
      · rename_i hlt
        refine List.pairwise_cons.mpr ⟨?_, h⟩
        intro x hx
        rcases List.mem_cons.mp hx with rfl | hx
        · exact not_lt.mp hlt
        · exact le_trans (not_lt.mp hlt) (hb x hx)

theorem pairwise_isortByKey {α β : Type} [LinearOrder β] (k : α → β) (l : List α) :
    (isortByKey k l).Pairwise (fun x y => k x ≤ k y) := by
  induction l with
  | nil => exact List.Pairwise.nil
  | cons a l ih => exact pairwise_insertByKey k a ih

theorem candidateCountries_nil_prices (used : List String) :
    candidateCountries [] used = [] := by
  have hlk : ∀ l : List String,
      l.filterMap (fun c => (lookupPrice [] c).map (fun cost => (c, cost))) = [] := by
    intro l
    induction l with
    | nil => rfl
    | cons c r ih => simp [lookupPrice, List.find?, ih]
  unfold candidateCountries
  rw [hlk]
  rfl

/-- Trace shape of the purchase loop: the appended events are exactly the
`buy_number` calls for a prefix of the candidate list, each failed buy
followed by the exclusion of its country, with no reuse-store interaction;
on success the last buy is the purchased country, on failure every candidate
was tried and excluded. -/
theorem buyLoop_trace (env : Env) :
    ∀ (l : List (String × ℚ)) (st : OrchState),
      ∃ tr k, (buyLoop env st l).2.trace = st.trace ++ tr ∧
        k ≤ l.length ∧
        buyCountries tr = (l.map Prod.fst).take k ∧
        storeAdds tr = [] ∧
        (∀ a, (buyLoop env st l).1 = some a →
          buyCountries tr = excludeCountries tr ++ [a.country_code]) ∧
        ((buyLoop env st l).1 = none →
          excludeCountries tr = buyCountries tr ∧ k = l.length) := by
  intro l
  induction l with
  | nil =>
      intro st
      exact ⟨[], 0, by simp [buyLoop], by simp, rfl, rfl,
        fun a ha => absurd ha (by simp [buyLoop]), fun _ => ⟨rfl, rfl⟩⟩
  | cons cq rest ih =>
      intro st
      obtain ⟨c, q⟩ := cq
      simp only [buyLoop]
      cases hbuy : env.buy st.tick with
      | none =>
          simp only
          obtain ⟨tr', k', htr', hk', hbc', hsa', hsome', hnone'⟩ :=
            ih (excludeCountry c (logCall (ApiCall.buyNumber "go" c) (bump st)))
          refine ⟨Event.call (ApiCall.buyNumber "go" c) :: Event.exclude c :: tr', k' + 1,
            ?_, by simpa using hk', ?_, ?_, ?_, ?_⟩
          · rw [htr']
            simp [excludeCountry, logCall, logEvent, bump]
          · simp [buyCountries, List.filterMap_cons] at hbc' ⊢
            exact hbc'
          · simpa [storeAdds, List.filterMap_cons] using hsa'
          · intro a ha
            have := hsome' a ha
            simp [buyCountries, excludeCountries, List.filterMap_cons] at this ⊢
            exact this
          · intro hn
            have := hnone' hn
            refine ⟨?_, by simpa using this.2⟩
            simp [buyCountries, excludeCountries, List.filterMap_cons] at this ⊢
            exact this.1
      | some idPhone =>
          obtain ⟨aid, phone⟩ := idPhone
          simp only
          split
          · obtain ⟨tr', k', htr', hk', hbc', hsa', hsome', hnone'⟩ :=
              ih (excludeCountry c (logCall (ApiCall.buyNumber "go" c) (bump st)))
            refine ⟨Event.call (ApiCall.buyNumber "go" c) :: Event.exclude c :: tr', k' + 1,
              ?_, by simpa using hk', ?_, ?_, ?_, ?_⟩
            · rw [htr']
              simp [excludeCountry, logCall, logEvent, bump]
            · simp [buyCountries, List.filterMap_cons] at hbc' ⊢
              exact hbc'
            · simpa [storeAdds, List.filterMap_cons] using hsa'
            · intro a ha
              have := hsome' a ha
              simp [buyCountries, excludeCountries, List.filterMap_cons] at this ⊢
              exact this
            · intro hn
              have := hnone' hn
              refine ⟨?_, by simpa using this.2⟩
              simp [buyCountries, excludeCountries, List.filterMap_cons] at this ⊢
              exact this.1
          · refine ⟨[Event.call (ApiCall.buyNumber "go" c), Event.purchased aid], 1,
              ?_, by simp, by simp [buyCountries, List.filterMap_cons], rfl, ?_, ?_⟩
            · simp [logEvent, logCall, bump]
            · intro a ha
              simp only [Option.some.injEq] at ha
              subst ha
              simp [buyCountries, excludeCountries, List.filterMap_cons]
            · intro hn
              exact absurd hn (by simp)

/-- Counterexample for C3 as stated: a reuse-store entry eligible for the
target service exists (the store model itself offers it), yet the
verification run purchases fresh numbers on every attempt and never touches
or consults the attached store (it ends identical, with no recording
events). -/
theorem acquisition_ignores_reuse_store_cex :
    (get_reusable_number 10 1800 "go" [reusableSeed]).1.isSome = true ∧
    buyCountries (handle_verification envLeak (initState (some [reusableSeed]))).2.trace =
      ["151", "151", "151"] ∧
    storeAdds (handle_verification envLeak (initState (some [reusableSeed]))).2.trace = [] ∧
    (handle_verification envLeak (initState (some [reusableSeed]))).2.store =
      some [reusableSeed] := by decide

/-- C3 amended: number acquisition never consults the reuse store — it always
purchases fresh.  `_get_new_number` leaves the attached store untouched and
performs no store recording; it offers the allow-listed, non-excluded
countries priced by the catalog in ascending price order (stable in the
allow-list order on ties), issues `buy_number` for a prefix of that candidate
list, skips every country already in the exclusion set, excludes each country
whose purchase fails (no stock), stopping at the first success. -/
theorem acquisition_always_buys_fresh (env : Env) (st : OrchState)
    (prices : List (String × ℚ)) (hpr : env.prices st.tick = some prices) :
    (get_new_number env st).2.store = st.store ∧
    storeAdds (get_new_number env st).2.trace = storeAdds st.trace ∧
    List.Pairwise (fun p q : String × ℚ => p.2 ≤ q.2)
      (candidateCountries prices st.used_countries) ∧
    ∃ tr k, (get_new_number env st).2.trace = st.trace ++ tr ∧
      k ≤ (candidateCountries prices st.used_countries).length ∧
      buyCountries tr = ((candidateCountries prices st.used_countries).map Prod.fst).take k ∧
      (∀ c ∈ buyCountries tr,
        c ∈ selected_countries.map Prod.fst ∧ c ∉ st.used_countries) ∧
      (∀ a, (get_new_number env st).1 = some a →
        buyCountries tr = excludeCountries tr ++ [a.country_code]) ∧
      ((get_new_number env st).1 = none →
        excludeCountries tr = buyCountries tr ∧
        k = (candidateCountries prices st.used_countries).length) := by
  have hpw : List.Pairwise (fun p q : String × ℚ => p.2 ≤ q.2)
      (candidateCountries prices st.used_countries) := by
    unfold candidateCountries
    exact pairwise_isortByKey _ _
  unfold get_new_number
  dsimp only
  split
  · rename_i hav
    have hcand : candidateCountries prices st.used_countries = [] := by
      unfold candidateCountries
      rw [List.isEmpty_iff.mp hav]
      rfl
    refine ⟨rfl, rfl, hpw, [], 0, by simp, by simp [hcand], by rw [hcand]; rfl,
      by simp [buyCountries], fun a ha => absurd ha (by simp), fun _ => ⟨rfl, by simp [hcand]⟩⟩
  · rw [hpr]
    dsimp only
    split
    · rename_i hpempty
      have hcand : candidateCountries prices st.used_countries = [] := by
        rw [List.isEmpty_iff.mp hpempty]
        exact candidateCountries_nil_prices _
      refine ⟨rfl, rfl, hpw, [], 0, by simp [bump], by simp [hcand], by rw [hcand]; rfl,
        by simp [buyCountries], fun a ha => absurd ha (by simp), fun _ => ⟨rfl, by simp [hcand]⟩⟩
    · split
      · rename_i hcempty
        have hcand : candidateCountries prices st.used_countries = [] :=
          List.isEmpty_iff.mp hcempty
        refine ⟨rfl, rfl, hpw, [], 0, by simp [bump], by simp [hcand], by rw [hcand]; rfl,
          by simp [buyCountries], fun a ha => absurd ha (by simp), fun _ => ⟨rfl, by simp [hcand]⟩⟩
      · have hmemprop : ∀ c ∈ (candidateCountries prices (bump st).used_countries).map
            Prod.fst, c ∈ selected_countries.map Prod.fst ∧ c ∉ st.used_countries := by
          intro c hcmem
          rcases List.mem_map.mp hcmem with ⟨p, hp, rfl⟩
          exact mem_candidateCountries hp
        obtain ⟨bS, bStore, bAct, bV, bSome, bNone⟩ :=
          buyLoop_spec env (candidateCountries prices (bump st).used_countries) (bump st)
            (nodup_candidateCountries prices _) (fun c hc => (hmemprop c hc).2)
        obtain ⟨tr, k, htr, hk, hbc, hsa, hsome, hnone⟩ :=
          buyLoop_trace env (candidateCountries prices (bump st).used_countries) (bump st)
        refine ⟨bStore, ?_, hpw, tr, k, htr, hk, hbc, ?_, hsome, hnone⟩
        · rw [htr]
          unfold storeAdds at hsa ⊢
          rw [List.filterMap_append, hsa, List.append_nil]
          rfl
        · intro c hc
          have hcand : c ∈ (candidateCountries prices
              (bump st).used_countries).map Prod.fst := by
            rw [hbc] at hc
            exact List.take_subset _ _ hc
          exact hmemprop c hcand

/-- Witness for the amended C3, on the fresh instance and the successful
environment (one catalog country, purchase succeeds at once). -/
theorem acquisition_always_buys_fresh_witness :
    (get_new_number envS (initState none)).2.store = (initState none).store ∧
    storeAdds (get_new_number envS (initState none)).2.trace =
      storeAdds (initState none).trace ∧
    List.Pairwise (fun p q : String × ℚ => p.2 ≤ q.2)
      (candidateCountries [("151", 1)] (initState none).used_countries) ∧
    ∃ tr k, (get_new_number envS (initState none)).2.trace = (initState none).trace ++ tr ∧
      k ≤ (candidateCountries [("151", 1)] (initState none).used_countries).length ∧
      buyCountries tr =
        ((candidateCountries [("151", 1)] (initState none).used_countries).map
          Prod.fst).take k ∧
      (∀ c ∈ buyCountries tr,
        c ∈ selected_countries.map Prod.fst ∧ c ∉ (initState none).used_countries) ∧
      (∀ a, (get_new_number envS (initState none)).1 = some a →
        buyCountries tr = excludeCountries tr ++ [a.country_code]) ∧
      ((get_new_number envS (initState none)).1 = none →
        excludeCountries tr = buyCountries tr ∧
        k = (candidateCountries [("151", 1)] (initState none).used_countries).length) :=
  acquisition_always_buys_fresh envS (initState none) [("151", 1)] rfl

/-! ### Claim C1 -/

/-- No `setStatus` call (of any status, in particular no cancel) occurs in
an event list. -/
def noSetStatus (l : List Event) : Bool :=
  l.all (fun e => match e with
    | Event.call (ApiCall.setStatus _ _) => false
    | _ => true)

theorem add_number_complete (now : Int) (ns : List ReusableNumber)
    (phone cc aid srv : String)
    (h1 : ¬phone = "") (h2 : ¬cc = "") (h3 : ¬aid = "") :
    (add_number now ns phone cc aid srv).1 = true := by
  unfold add_number
  rw [if_neg (by tauto)]
  cases htf : touchFirst now srv phone ns <;> simp [htf]

theorem submitCode_fail_store (env : Env) (aid : String) (st : OrchState)
    (h : (submitCode env aid st).1 = false) :
    (submitCode env aid st).2.store = st.store := by
  unfold submitCode at h ⊢
  dsimp only at h ⊢
  split
  · exact ((frame_findCodeField env 3 st).comp (frame_cancel_current_number _)).2.1
  · split
    · exact (((frame_findCodeField env 3 st).thenBump).comp
        (frame_cancel_current_number _)).2.1
    · split
      · exact (((frame_findCodeField env 3 st).thenBump.thenBump).comp
          (frame_cancel_current_number _)).2.1
      · rename_i hc1 hc2 hc3
        rw [if_neg hc1, if_neg hc2, if_neg hc3] at h
        exact absurd h (by simp)

theorem submitCode_success (env : Env) (aid : String) (st : OrchState)
    (h : (submitCode env aid st).1 = true) :
    ∃ l2, (submitCode env aid st).2.trace =
        st.trace ++ Event.call (ApiCall.setStatus aid 8) :: Event.completed aid :: l2 ∧
      noSetStatus l2 = true ∧
      (submitCode env aid st).2.vstate = VerificationState.COMPLETED ∧
      (submitCode env aid st).2.current_activation = st.current_activation ∧
      (∀ a, st.store ≠ none → st.current_activation = some a →
        st.phone_number = some a.phone_number → a.phone_number ≠ "" →
        a.activation_id ≠ "" → a.country_code ≠ "" →
        Event.storeAdd a.phone_number "gmail" ∈ l2) := by
  obtain ⟨t, ht⟩ := findCodeField_state env 3 st
  unfold submitCode at h ⊢
  dsimp only at h ⊢
  split at h
  · exact absurd h (by simp)
  · rename_i hc1
    rw [if_neg hc1]
    split at h
    · exact absurd h (by simp)
    · rename_i hc2
      rw [if_neg hc2]
      split at h
      · exact absurd h (by simp)
      · rename_i hc3
        rw [if_neg hc3]
        rw [ht]
        unfold storeNumber
        simp only [logEvent, logCall, bump]
        cases hstore : st.store with
        | none =>
            dsimp only
            refine ⟨[], by simp, rfl, rfl, rfl, ?_⟩
            intro a hns
            exact absurd rfl hns
        | some ns =>
            dsimp only
            cases hact : st.current_activation with
            | none =>
                dsimp only
                refine ⟨[], by simp, rfl, rfl, rfl, ?_⟩
                intro a hns ha
                exact absurd ha (by simp)
            | some a0 =>
                dsimp only
                split
                · refine ⟨[Event.storeAdd (st.phone_number.getD "") "gmail"],
                    by simp, rfl, rfl, rfl, ?_⟩
                  intro a hns ha hp hpne haidne hccne
                  simp only [Option.some.injEq] at ha
                  subst ha
                  simp [hp]
                · rename_i hadd
                  refine ⟨[], by simp, rfl, rfl, rfl, ?_⟩
                  intro a hns ha hp hpne haidne hccne
                  simp only [Option.some.injEq] at ha
                  subst ha
                  exfalso
                  apply hadd
                  apply add_number_complete
                  · simpa [hp] using hpne
                  · exact hccne
                  · exact haidne

theorem handle_sms_none (env : Env) (st : OrchState)
    (h : st.current_activation = none) :
    handle_sms_verification env st = (false, st) := by
  unfold handle_sms_verification
  rw [h]

theorem handle_sms_fail_store (env : Env) (st : OrchState)
    (h : (handle_sms_verification env st).1 = false) :
    (handle_sms_verification env st).2.store = st.store := by
  cases hact : st.current_activation with
  | none => rw [handle_sms_none env st hact]
  | some act =>
      unfold handle_sms_verification at h ⊢
      rw [hact] at h ⊢
      dsimp only at h ⊢
      have h0 : Frame st
          { st with current_activation := some act,
                    vstate := VerificationState.WAITING_SMS } :=
        frame_of_eq rfl rfl rfl hact.symm rfl
      have h2 : Frame st (resendLoop env act.activation_id 2
          (get_sms_code env act.activation_id
            { st with current_activation := some act,
                      vstate := VerificationState.WAITING_SMS }).1
          (get_sms_code env act.activation_id
            { st with current_activation := some act,
                      vstate := VerificationState.WAITING_SMS }).2).2 :=
        (h0.thenGetSms env act.activation_id).comp
          (frame_resendLoop env act.activation_id 2 _ _)
      split
      · exact (h2.comp (frame_cancel_current_number _)).2.1
      · split
        · exact ((h2.thenBump).comp (frame_cancel_current_number _)).2.1
        · rename_i hc1 hc2
          rw [if_neg hc1, if_neg hc2] at h
          have hsub := submitCode_fail_store env act.activation_id _ h
          rw [hsub]
          exact (h2.thenBump).2.1

theorem handle_sms_success (env : Env) (st : OrchState) (a : ActivationInfo)
    (hact : st.current_activation = some a)
    (h : (handle_sms_verification env st).1 = true) :
    ∃ l1 l2, (handle_sms_verification env st).2.trace =
        st.trace ++ l1 ++ Event.call (ApiCall.setStatus a.activation_id 8) ::
          Event.completed a.activation_id :: l2 ∧
      noSetStatus l2 = true ∧
      (handle_sms_verification env st).2.vstate = VerificationState.COMPLETED ∧
      ((handle_sms_verification env st).2.current_activation = some a ∨
        (handle_sms_verification env st).2.current_activation = none) ∧
      (st.store ≠ none → ActInv st →
        (handle_sms_verification env st).2.current_activation = some a →
        Event.storeAdd a.phone_number "gmail" ∈ l2) := by
  unfold handle_sms_verification at h ⊢
  rw [hact] at h ⊢
  dsimp only at h ⊢
  have h0 : Frame st
      { st with current_activation := some a,
                vstate := VerificationState.WAITING_SMS } :=
    frame_of_eq rfl rfl rfl hact.symm rfl
  have h2 : Frame st (resendLoop env a.activation_id 2
      (get_sms_code env a.activation_id
        { st with current_activation := some a,
                  vstate := VerificationState.WAITING_SMS }).1
      (get_sms_code env a.activation_id
        { st with current_activation := some a,
                  vstate := VerificationState.WAITING_SMS }).2).2 :=
    (h0.thenGetSms env a.activation_id).comp
      (frame_resendLoop env a.activation_id 2 _ _)
  split at h
  · exact absurd h (by simp)
  · rename_i hc1
    rw [if_neg hc1]
    split at h
    · exact absurd h (by simp)
    · rename_i hc2
      rw [if_neg hc2]
      have h3 := h2.thenBump
      obtain ⟨l2, htr2, hns2, hv2, hact2, hstore2⟩ :=
        submitCode_success env a.activation_id _ h
      obtain ⟨tr0, htr0, -, -⟩ := h3.1
      refine ⟨tr0, l2, ?_, hns2, hv2, ?_, ?_⟩
      · rw [htr2, htr0]
        try simp [List.append_assoc]
      · rcases h3.2.2.1 with he | he
        · rw [hact2, he, hact]
          exact Or.inl rfl
        · exact Or.inr (hact2.trans he)
      · intro hnsne hInv hacta
        refine hstore2 a ?_ ?_ ?_ ?_ ?_ ?_
        · rw [h3.2.1]
          exact hnsne
        · rw [← hact2]
          exact hacta
        · have hinvmid := h3.actInv hInv
          have hmid : (bump (resendLoop env a.activation_id 2
              (get_sms_code env a.activation_id
                { st with current_activation := some a,
                          vstate := VerificationState.WAITING_SMS }).1
              (get_sms_code env a.activation_id
                { st with current_activation := some a,
                          vstate := VerificationState.WAITING_SMS }).2).2).current_activation
              = some a := by
            rw [← hact2]
            exact hacta
          exact (hinvmid a hmid).1
        · have hinvmid := h3.actInv hInv
          have hmid : (bump (resendLoop env a.activation_id 2
              (get_sms_code env a.activation_id
                { st with current_activation := some a,
                          vstate := VerificationState.WAITING_SMS }).1
              (get_sms_code env a.activation_id
                { st with current_activation := some a,
                          vstate := VerificationState.WAITING_SMS }).2).2).current_activation
              = some a := by
            rw [← hact2]
            exact hacta
          exact (hinvmid a hmid).2.1
        · have hinvmid := h3.actInv hInv
          have hmid : (bump (resendLoop env a.activation_id 2
              (get_sms_code env a.activation_id
                { st with current_activation := some a,
                          vstate := VerificationState.WAITING_SMS }).1
              (get_sms_code env a.activation_id
                { st with current_activation := some a,
                          vstate := VerificationState.WAITING_SMS }).2).2).current_activation
              = some a := by
            rw [← hact2]
            exact hacta
          exact (hinvmid a hmid).2.2.1
        · have hinvmid := h3.actInv hInv
          have hmid : (bump (resendLoop env a.activation_id 2
              (get_sms_code env a.activation_id
                { st with current_activation := some a,
                          vstate := VerificationState.WAITING_SMS }).1
              (get_sms_code env a.activation_id
                { st with current_activation := some a,
                          vstate := VerificationState.WAITING_SMS }).2).2).current_activation
              = some a := by
            rw [← hact2]
            exact hacta
          exact (hinvmid a hmid).2.2.2

theorem cycleCore_fail_store (env : Env) (st : OrchState)
    (h : (cycleCore env st).1 = false) :
    (cycleCore env st).2.store = st.store := by
  unfold cycleCore at h ⊢
  dsimp only at h ⊢
  obtain ⟨gS, gStore, gAct, gV, gSome, gNone⟩ := get_new_number_spec env st
  cases hres : (get_new_number env st).1 with
  | none => exact gStore
  | some a0 =>
      rw [hres] at h
      dsimp only at h ⊢
      split at h
      · rename_i hsub
        rw [if_pos hsub]
        exact Eq.trans (frame_submit_phone_number env _).2.1 gStore
      · rename_i hsub
        rw [if_neg hsub]
        have hfs := handle_sms_fail_store env _ h
        rw [hfs]
        exact Eq.trans (frame_submit_phone_number env _).2.1 gStore

theorem cycle_fail_store (env : Env) (st : OrchState)
    (h : (try_verification_cycle env st).1 = false) :
    (try_verification_cycle env st).2.store = st.store := by
  unfold try_verification_cycle at h ⊢
  dsimp only at h ⊢
  split at h
  · rename_i hc
    rw [if_pos hc]
    exact cycleCore_fail_store env st h
  · rename_i hc
    rw [if_neg hc]
    exact cycleCore_fail_store env _ h

theorem cycleCore_success (env : Env) (st : OrchState)
    (h : (cycleCore env st).1 = true) :
    ∃ a l1 l2, (cycleCore env st).2.trace =
        st.trace ++ l1 ++ Event.call (ApiCall.setStatus a.activation_id 8) ::
          Event.completed a.activation_id :: l2 ∧
      noSetStatus l2 = true ∧
      (cycleCore env st).2.vstate = VerificationState.COMPLETED ∧
      ((cycleCore env st).2.current_activation = some a ∨
        (cycleCore env st).2.current_activation = none) ∧
      (st.store ≠ none → (cycleCore env st).2.current_activation = some a →
        Event.storeAdd a.phone_number "gmail" ∈ l2) := by
  unfold cycleCore at h ⊢
  dsimp only at h ⊢
  obtain ⟨gS, gStore, gAct, gV, gSome, gNone⟩ := get_new_number_spec env st
  cases hres : (get_new_number env st).1 with
  | none =>
      rw [hres] at h
      simp at h
  | some a0 =>
      rw [hres] at h
      dsimp only at h ⊢
      split at h
      · simp at h
      · rename_i hsub
        rw [if_neg hsub]
        have hmidInv : ActInv { (get_new_number env st).2 with
            current_activation := some a0 } := by
          intro b hb
          have hb' : some a0 = some b := hb
          simp only [Option.some.injEq] at hb'
          subst hb'
          obtain ⟨h1, h2, h3, h4, h5⟩ := gSome a0 hres
          exact ⟨h1, h2, h3, selected_countries_ne_empty _ h4⟩
        have hsubFrame := frame_submit_phone_number env
          { (get_new_number env st).2 with current_activation := some a0 }
        rcases hsubFrame.2.2.1 with he | he
        · have hcur : (submit_phone_number env
              { (get_new_number env st).2 with
                  current_activation := some a0 }).2.current_activation = some a0 := he
          obtain ⟨l1', l2, htr', hns', hv', hactd', hstore'⟩ :=
            handle_sms_success env _ a0 hcur h
          have hpre : StepOk st (submit_phone_number env
              { (get_new_number env st).2 with
                  current_activation := some a0 }).2 := by
            refine StepOk.trans (StepOk.trans gS (stepOk_of_eq rfl rfl)) hsubFrame.1
          obtain ⟨trp, htrp, -, -⟩ := hpre
          refine ⟨a0, trp ++ l1', l2, ?_, hns', hv', hactd', ?_⟩
          · rw [htr', htrp]
            try simp [List.append_assoc]
          · intro hstne hfincur
            refine hstore' ?_ ?_ hfincur
            · rw [hsubFrame.2.1]
              show ((get_new_number env st).2).store ≠ none
              rw [gStore]
              exact hstne
            · exact hsubFrame.actInv hmidInv
        · rw [handle_sms_none env _ he] at h
          simp at h

theorem cycle_success (env : Env) (st : OrchState)
    (h : (try_verification_cycle env st).1 = true) :
    ∃ a l1 l2, (try_verification_cycle env st).2.trace =
        st.trace ++ l1 ++ Event.call (ApiCall.setStatus a.activation_id 8) ::
          Event.completed a.activation_id :: l2 ∧
      noSetStatus l2 = true ∧
      (try_verification_cycle env st).2.vstate = VerificationState.COMPLETED ∧
      ((try_verification_cycle env st).2.current_activation = some a ∨
        (try_verification_cycle env st).2.current_activation = none) ∧
      (st.store ≠ none → (try_verification_cycle env st).2.current_activation = some a →
        Event.storeAdd a.phone_number "gmail" ∈ l2) := by
  unfold try_verification_cycle at h ⊢
  dsimp only at h ⊢
  split at h
  · rename_i hc
    rw [if_pos hc]
    exact cycleCore_success env st h
  · rename_i hc
    rw [if_neg hc]
    obtain ⟨a, l1, l2, htr, hns, hv, hactd, hstore⟩ := cycleCore_success env _ h
    exact ⟨a, l1, l2, htr, hns, hv, hactd, hstore⟩

theorem attemptLoop_success (env : Env) :
    ∀ (fuel count : Nat) (st : OrchState),
      (attemptLoop env fuel count st).1 = true →
      ∃ a l1 l2, (attemptLoop env fuel count st).2.trace =
          st.trace ++ l1 ++ Event.call (ApiCall.setStatus a.activation_id 8) ::
            Event.completed a.activation_id :: l2 ∧
        noSetStatus l2 = true ∧
        (attemptLoop env fuel count st).2.vstate = VerificationState.COMPLETED ∧
        ((attemptLoop env fuel count st).2.current_activation = some a ∨
          (attemptLoop env fuel count st).2.current_activation = none) ∧
        (st.store ≠ none →
          (attemptLoop env fuel count st).2.current_activation = some a →
          Event.storeAdd a.phone_number "gmail" ∈ l2) := by
  intro fuel
  induction fuel with
  | zero =>
      intro count st h
      simp [attemptLoop] at h
  | succ fuel ih =>
      intro count st h
      unfold attemptLoop at h ⊢
      dsimp only at h ⊢
      split at h
      · rename_i hc1
        rw [if_pos hc1]
        split at h
        · rename_i hc2
          rw [if_pos hc2]
          exact ih (count + 1) (bump st) h
        · rename_i hc2
          rw [if_neg hc2]
          split at h
          · rename_i hr
            rw [if_pos hr]
            exact cycle_success env (bump st) hr
          · rename_i hr
            rw [if_neg hr]
            have hrf : (try_verification_cycle env (bump st)).1 = false :=
              Bool.eq_false_iff.mpr hr
            obtain ⟨a, l1, l2, htr, hns, hv, hactd, hstore⟩ :=
              ih (count + 1) (try_verification_cycle env (bump st)).2 h
            obtain ⟨tr, htr2, -, -⟩ := (sframe_try_verification_cycle env (bump st)).1
            refine ⟨a, tr ++ l1, l2, ?_, hns, hv, hactd, ?_⟩
            · rw [htr, htr2]
              simp [bump, List.append_assoc]
            · intro hstne hcur
              refine hstore ?_ hcur
              rw [cycle_fail_store env (bump st) hrf]
              exact hstne
      · rename_i hc1
        rw [if_neg hc1]
        split at h
        · rename_i hr
          rw [if_pos hr]
          exact cycle_success env st hr
        · rename_i hr
          rw [if_neg hr]
          have hrf : (try_verification_cycle env st).1 = false :=
            Bool.eq_false_iff.mpr hr
          obtain ⟨a, l1, l2, htr, hns, hv, hactd, hstore⟩ :=
            ih (count + 1) (try_verification_cycle env st).2 h
          obtain ⟨tr, htr2, -, -⟩ := (sframe_try_verification_cycle env st).1
          refine ⟨a, tr ++ l1, l2, ?_, hns, hv, hactd, ?_⟩
          · rw [htr, htr2]
            simp [List.append_assoc]
          · intro hstne hcur
            refine hstore ?_ hcur
            rw [cycle_fail_store env st hrf]
            exact hstne

theorem ensure_final_cleanup_completed (st : OrchState)
    (h : st.vstate = VerificationState.COMPLETED) :
    ensure_final_cleanup st = st := by
  unfold ensure_final_cleanup
  split
  · rfl
  · unfold cancel_number
    split
    · rfl
    · rw [if_pos h]

theorem handle_verification_core_success (env : Env) (st : OrchState)
    (hscr : env.checkScreen st.tick = true)
    (h : (handle_verification_core env st).1 = true) :
    ∃ a l1 l2, (handle_verification_core env st).2.trace =
        st.trace ++ l1 ++ Event.call (ApiCall.setStatus a.activation_id 8) ::
          Event.completed a.activation_id :: l2 ∧
      noSetStatus l2 = true ∧
      (handle_verification_core env st).2.vstate = VerificationState.COMPLETED ∧
      ((handle_verification_core env st).2.current_activation = some a ∨
        (handle_verification_core env st).2.current_activation = none) ∧
      (st.store ≠ none →
        (handle_verification_core env st).2.current_activation = some a →
        Event.storeAdd a.phone_number "gmail" ∈ l2) := by
  unfold handle_verification_core at h ⊢
  dsimp only at h ⊢
  have hcond : ¬((!(check_phone_screen env st).1) = true) := by
    simp [check_phone_screen, hscr]
  rw [if_neg hcond] at h ⊢
  split at h
  · simp at h
  · rename_i hval
    rw [if_neg hval]
    obtain ⟨a, l1, l2, htr, hns, hv, hactd, hstore⟩ :=
      attemptLoop_success env 3 0
        (validate_initial_conditions env (check_phone_screen env st).2).2 h
    have hfr := (frame_check_phone_screen env st).comp
      (frame_validate_initial_conditions env _)
    obtain ⟨tr, htr2, -, -⟩ := hfr.1
    refine ⟨a, tr ++ l1, l2, ?_, hns, hv, hactd, ?_⟩
    · rw [htr, htr2]
      simp [List.append_assoc]
    · intro hstne hcur
      refine hstore ?_ hcur
      rw [hfr.2.1]
      exact hstne

/-- C1 (amended): for every run of `handle_verification` from a fresh
instance in which the phone screen is present and the run ends in success,
there is a winning activation `a` whose remote status is set to 8 and whose
completion is logged, with no further `set_status` call of any kind (8 or a
cancel 6) issued for any activation afterwards, including during the
finalization cleanup, and the terminal verification state is COMPLETED.
The phone number is recorded in the reuse store tagged "gmail", but ONLY
when a reuse store is attached (`phone_manager` set — which the shipped
pipeline never does) and the winning activation is still held at
completion; the unconditional recording asserted by the original claim
does not hold. -/
theorem handle_verification_success_spec (env : Env)
    (pm : Option (List ReusableNumber))
    (hscr : env.checkScreen 0 = true)
    (h : (handle_verification env (initState pm)).1 = true) :
    ∃ a l1 l2, (handle_verification env (initState pm)).2.trace =
        l1 ++ Event.call (ApiCall.setStatus a.activation_id 8) ::
          Event.completed a.activation_id :: l2 ∧
      noSetStatus l2 = true ∧
      (handle_verification env (initState pm)).2.vstate =
        VerificationState.COMPLETED ∧
      ((handle_verification env (initState pm)).2.current_activation = some a ∨
        (handle_verification env (initState pm)).2.current_activation = none) ∧
      (pm ≠ none →
        (handle_verification env (initState pm)).2.current_activation = some a →
        Event.storeAdd a.phone_number "gmail" ∈ l2) := by
  have hc : (handle_verification_core env (initState pm)).1 = true := h
  obtain ⟨a, l1, l2, htr, hns, hv, hactd, hstore⟩ :=
    handle_verification_core_success env (initState pm) hscr hc
  have heq : (handle_verification env (initState pm)).2
      = (handle_verification_core env (initState pm)).2 := by
    show ensure_final_cleanup (handle_verification_core env (initState pm)).2
      = (handle_verification_core env (initState pm)).2
    exact ensure_final_cleanup_completed _ hv
  refine ⟨a, l1, l2, ?_, hns, ?_, ?_, ?_⟩
  · rw [heq, htr]
    simp [initState]
  · rw [heq]
    exact hv
  · rw [heq]
    exact hactd
  · intro hpm hcur
    rw [heq] at hcur
    exact hstore hpm hcur

theorem handle_verification_success_spec_witness :
    ∃ a l1 l2, (handle_verification envS (initState (some []))).2.trace =
        l1 ++ Event.call (ApiCall.setStatus a.activation_id 8) ::
          Event.completed a.activation_id :: l2 ∧
      noSetStatus l2 = true ∧
      (handle_verification envS (initState (some []))).2.vstate =
        VerificationState.COMPLETED ∧
      ((handle_verification envS (initState (some []))).2.current_activation = some a ∨
        (handle_verification envS (initState (some []))).2.current_activation = none) ∧
      ((some [] : Option (List ReusableNumber)) ≠ none →
        (handle_verification envS (initState (some []))).2.current_activation = some a →
        Event.storeAdd a.phone_number "gmail" ∈ l2) :=
  handle_verification_success_spec envS (some []) rfl (by decide)

/-- C1 counterexample to the original claim: a fully successful run of
`handle_verification` on a fresh instance with no reuse store attached (the
shipped pipeline: `GmailCreator` never sets `phone_manager`, see
`hasattr(self, 'phone_manager')` in core.py and the constructor call in
ui/app.py).  The run returns success, the winning activation "id2" gets its
status set to 8 and is completed, yet NO reuse-store recording happens: the
trace contains no `storeAdd` event and the store stays absent, contradicting
the claim that the phone number is recorded in the reuse store on success. -/
theorem success_without_store_recording_cex :
    (handle_verification envS (initState none)).1 = true ∧
    Event.call (ApiCall.setStatus "id2" 8) ∈
      (handle_verification envS (initState none)).2.trace ∧
    (handle_verification envS (initState none)).2.vstate =
      VerificationState.COMPLETED ∧
    storeAdds (handle_verification envS (initState none)).2.trace = [] ∧
    (handle_verification envS (initState none)).2.store = none := by
  decide

end PV
